import Mathlib

/-!
# Simulated physical layer (`physical_simulated.c`)

A shallow embedding of the simulated serial-port physical layer: the
file-scope byte store with its two cursors, the receive time limit and the
error threshold, together with the four entry points `PHY_open`,
`PHY_close`, `PHY_send` and `PHY_get`.

Modelling conventions.

* `int` is a 32-bit two's complement integer: a value of `Int` between
  `INT_MIN` and `INT_MAX`. Signed overflow has no meaning in C; the sums and
  differences that can leave the range on arguments an `int` can hold
  (`rxTimeConst + rxTimeIntv` and `1 + (int)(...)` in `PHY_open`,
  `nBytesWritten + nBytesToSend`, `BUFSIZE - nBytesWritten` and
  `nBytesWritten += nBytesSent` in `PHY_send`) wrap around modulo `2^32`
  (`wrapInt`), as they do on the usual platforms. The array indices
  `nBytesWritten + i` and `nBytesUsed + i` and the cursor arithmetic of
  `PHY_get` are exact: they cannot overflow before an access outside
  `buffer` has happened, nor under the cursor invariant.
* `byte_t` comes from `physical.h`, which is not among the sources; it is
  taken as an 8-bit unsigned byte, `Fin 256`.  A conversion of an `int` to
  `byte_t` is reduction modulo 256 (`toByte`).
* The C library generator `rand()` is an infinite stream `rnd : Nat → Nat`
  of non-negative values and a position `rpos`; the `i`-th call returns
  `rnd i`.  `srand(time(NULL))` replaces the stream by the one the seed
  selects and rewinds the position.
* `RAND_MAX` is a parameter.
* Arrays reached through pointers (`dataTX`, `dataRX`) and the store
  `buffer` are total maps from indices to bytes.
* `double` is IEEE 754 binary64: NaN, the two infinities and the finite
  values `± m * 2^e`; a product is rounded to 53 significant bits, to
  nearest, ties to even, and comparisons with NaN are false (`!=` true).
  `(int)` is truncation towards zero; on a value no `int` can hold, where C
  leaves the conversion undefined, it gives `INT_MIN`, as the x86 conversion
  does.
* A call `waitms(d)` made by `PHY_get` is recorded in the list `waits`; the
  function `waitms` itself is embedded apart, over a stream of clock
  readings. `printf` output is not modelled.
-/

set_option linter.unusedVariables false

namespace PhySim

/-- Eight-bit unsigned byte (`byte_t` of `physical.h`). -/
abbrev byte_t := Fin 256

/-- Conversion of a non-negative integer value to `byte_t`. -/
def toByte (x : Nat) : byte_t := ⟨x % 256, Nat.mod_lt x (by decide)⟩

/-- Size of the array holding the bytes: `#define BUFSIZE 2000`. -/
def BUFSIZE : Int := 2000

/-- Store `v` at index `i` of the array `a`: the assignment `a[i] = v`. -/
def setAt {ι : Type} [DecidableEq ι] (a : ι → byte_t) (i : ι) (v : byte_t) : ι → byte_t :=
  fun j => if j = i then v else a j

/-- The file-scope variables of `physical_simulated.c`, with the state of the
C library the functions act on (random generator, requested waits). -/
structure PhyState where
  /-- The array `buffer[BUFSIZE]`. -/
  buffer : Int → byte_t
  /-- Number of bytes written to the buffer (write cursor). -/
  nBytesWritten : Int
  /-- Number of bytes read from the buffer (read cursor). -/
  nBytesUsed : Int
  /-- Time limit for `PHY_get`. -/
  rxTimeLimit : Int
  /-- Threshold for simulated errors in `PHY_get`. -/
  threshold : Int
  /-- The stream of values `rand()` returns. -/
  rnd : Nat → Nat
  /-- Number of values of the stream consumed so far. -/
  rpos : Nat
  /-- The delays, in ms, of the calls of `waitms` made so far, oldest first. -/
  waits : List Int

/-- One call of `rand()`: the next value of the stream, and the state with
the stream advanced. -/
def rand (s : PhyState) : Nat × PhyState :=
  (s.rnd s.rpos, { s with rpos := s.rpos + 1 })

/-- The call `srand(seed)`: the generator restarts on the stream `seeded`
chosen by the seed. -/
def srand (seeded : Nat → Nat) (s : PhyState) : PhyState :=
  { s with rnd := seeded, rpos := 0 }

/-- A call `waitms(delay_ms)` made by `PHY_get`, recorded as a requested
blocking wait. -/
def call_waitms (delay_ms : Int) (s : PhyState) : PhyState :=
  { s with waits := s.waits ++ [delay_ms] }

/-- The loop `for (i = 0; i < n; i++) body`, for a bound `n` the body leaves
alone: `body 0`, then `body 1`, ..., then `body (n - 1)`. -/
def forLoop {σ : Type} (body : Nat → σ → σ) : Nat → σ → σ
  | 0, s => s
  | k + 1, s => body k (forLoop body k s)

/-- Largest value of an `int`. -/
def INT_MAX : Int := 2147483647

/-- Least value of an `int`. -/
def INT_MIN : Int := -2147483648

/-- The `int` a sum or difference of two `int`s yields: the exact result when
it is between `INT_MIN` and `INT_MAX`, and otherwise the value congruent to
it modulo `2^32` in that range. -/
def wrapInt (x : Int) : Int := (x + 2147483648) % 4294967296 - 2147483648

/-- Values of the type `double` (IEEE 754 binary64): NaN, plus or minus
infinity, and the finite values `± m * 2^e`. A value a `double` can hold has
`m < 2^53`; the same value may be written with several pairs `m`, `e`. -/
inductive double
  | nan
  | inf (negative : Bool)
  | fin (negative : Bool) (m : Nat) (e : Int)
  deriving DecidableEq

instance : OfNat double 0 := ⟨double.fin false 0 0⟩

instance : OfNat double 1 := ⟨double.fin false 1 0⟩

instance : OfNat double 8 := ⟨double.fin false 8 0⟩

/-- Number of binary digits of `n`, computed with at most `fuel` halvings. -/
def bitLengthAux : Nat → Nat → Nat
  | 0, _ => 0
  | fuel + 1, n => if n = 0 then 0 else 1 + bitLengthAux fuel (n / 2)

/-- Number of binary digits of `n`: 0 for 0, and `k + 1` when
`2^k <= n < 2^(k+1)`. -/
def bitLength (n : Nat) : Nat := bitLengthAux n n

/-- The integer `± m * 2^(e - e0)`, for an exponent `e0 <= e`: finite values
are compared on a common exponent. -/
def double.scaled (negative : Bool) (m : Nat) (e e0 : Int) : Int :=
  (if negative then -1 else 1) * ((m : Int) * 2 ^ (e - e0).toNat)

/-- The comparison `a < b` of two `double`s; false when one is NaN. -/
def double.lt : double → double → Bool
  | double.nan, _ => false
  | _, double.nan => false
  | double.inf s1, double.inf s2 => s1 && !s2
  | double.inf s1, double.fin _ _ _ => s1
  | double.fin _ _ _, double.inf s2 => !s2
  | double.fin s1 m1 e1, double.fin s2 m2 e2 =>
    decide (double.scaled s1 m1 e1 (min e1 e2) < double.scaled s2 m2 e2 (min e1 e2))

/-- The comparison `a == b` of two `double`s; false when one is NaN, true
for the two zeros. -/
def double.eq : double → double → Bool
  | double.nan, _ => false
  | _, double.nan => false
  | double.inf s1, double.inf s2 => s1 == s2
  | double.inf _, double.fin _ _ _ => false
  | double.fin _ _ _, double.inf _ => false
  | double.fin s1 m1 e1, double.fin s2 m2 e2 =>
    decide (double.scaled s1 m1 e1 (min e1 e2) = double.scaled s2 m2 e2 (min e1 e2))

/-- The comparison `a != b` of two `double`s; true when one is NaN. -/
def double.ne (a b : double) : Bool := !(double.eq a b)

/-- The comparison `a <= b` of two `double`s; false when one is NaN. -/
def double.le (a b : double) : Bool := double.lt a b || double.eq a b

/-- The `double` nearest to `± n * 2^e`: the significand is cut to 53 bits, or
to fewer at the bottom of the exponent range, rounding to nearest with ties
to even; a result beyond the largest finite value is an infinity. -/
def double.round (negative : Bool) (n : Nat) (e : Int) : double :=
  let k1 : Int := (bitLength n : Int) - 53
  let k2 : Int := -1074 - e
  let k : Nat := (max (max k1 k2) 0).toNat
  let q := n / 2 ^ k
  let r := n % 2 ^ k
  let q' := if 2 * r > 2 ^ k ∨ (2 * r = 2 ^ k ∧ q % 2 = 1) then q + 1 else q
  if (bitLength q' : Int) + (e + (k : Int)) > 1024 then double.inf negative
  else double.fin negative q' (e + (k : Int))

/-- The product `a * b` of two `double`s. -/
def double.mul : double → double → double
  | double.nan, _ => double.nan
  | _, double.nan => double.nan
  | double.inf s1, double.inf s2 => double.inf (xor s1 s2)
  | double.inf s1, double.fin s2 m _ => if m = 0 then double.nan else double.inf (xor s1 s2)
  | double.fin s1 m _, double.inf s2 => if m = 0 then double.nan else double.inf (xor s1 s2)
  | double.fin s1 m1 e1, double.fin s2 m2 e2 => double.round (xor s1 s2) (m1 * m2) (e1 + e2)

/-- Conversion `(double) x` of an `int`. -/
def double.ofInt (x : Int) : double := double.round (decide (x < 0)) x.natAbs 0

/-- Conversion `(int) x` of a `double`: truncation towards zero when the
result is between `INT_MIN` and `INT_MAX`, and `INT_MIN` otherwise. -/
def castInt : double → Int
  | double.nan => INT_MIN
  | double.inf _ => INT_MIN
  | double.fin negative m e =>
    let t : Int := if 0 ≤ e then (m : Int) * 2 ^ e.toNat else (m : Int) / 2 ^ (-e).toNat
    let v : Int := if negative then -t else t
    if INT_MIN ≤ v ∧ v ≤ INT_MAX then v else INT_MIN

/-- The function `PHY_open`: resets the byte counters, sets the receive time
limit, reseeds the generator and derives the error threshold from the
probability of error. Returns the new state and the value returned. -/
def PHY_open (RAND_MAX : Nat) (seeded : Nat → Nat) (s : PhyState)
    (portNum bitRate nDataBits parity rxTimeConst rxTimeIntv : Int) (probErr : double) :
    PhyState × Int :=
  let s1 := { s with nBytesWritten := 0 }
  let s2 := { s1 with nBytesUsed := 0 }
  let s3 := { s2 with rxTimeLimit := wrapInt (rxTimeConst + rxTimeIntv) }
  let s4 := srand seeded s3
  let probErr1 : double := if double.lt probErr 0 then 0 else probErr
  let probErr2 : double := if double.lt 1 probErr1 then 1 else probErr1
  let s5 :=
    if double.ne probErr2 0 then
      { s4 with threshold :=
          wrapInt (1 + castInt (double.mul (double.mul 8 (double.ofInt (RAND_MAX : Int)))
            probErr2)) }
    else
      { s4 with threshold := 0 }
  (s5, 0)

/-- The probability `PHY_open` works with after its two checks
`if (probErr < 0.0) probErr = 0.0; if (probErr > 1.0) probErr = 1.0;`. -/
def clampProb (probErr : double) : double :=
  let probErr1 : double := if double.lt probErr 0 then 0 else probErr
  if double.lt 1 probErr1 then 1 else probErr1

/-- The function `PHY_close`: does nothing and returns 0. -/
def PHY_close (s : PhyState) : PhyState × Int := (s, 0)

/-- Body of the loop of `PHY_send` that fills the start of the buffer:
`buffer[i] = rand() % 200`. -/
def preambleBody (i : Nat) (s : PhyState) : PhyState :=
  let (r, s1) := rand s
  { s1 with buffer := setAt s1.buffer (i : Int) (toByte (r % 200)) }

/-- First block of `PHY_send`: at the start of a frame (`nBytesWritten == 0`)
put `2 + rand() % 10` random bytes at the start of the buffer. -/
def sendPreamble (s : PhyState) : PhyState :=
  if s.nBytesWritten = 0 then
    let (r, s1) := rand s
    let s2 := { s1 with nBytesWritten := 2 + ((r % 10 : Nat) : Int) }
    forLoop preambleBody s2.nBytesWritten.toNat s2
  else s

/-- Second block of `PHY_send`: the number of bytes that will be sent, all of
them when there is room and what fits otherwise. -/
def sendCount (s : PhyState) (nBytesToSend : Int) : Int :=
  if wrapInt (s.nBytesWritten + nBytesToSend) > BUFSIZE
  then wrapInt (BUFSIZE - s.nBytesWritten)
  else nBytesToSend

/-- Body of the copy loop of `PHY_send`:
`buffer[nBytesWritten + i] = dataTX[i]`. -/
def copyBody (dataTX : Nat → byte_t) (i : Nat) (s : PhyState) : PhyState :=
  { s with buffer := setAt s.buffer (s.nBytesWritten + (i : Int)) (dataTX i) }

/-- The function `PHY_send`: preamble at the start of a frame, room check,
copy of the bytes, update of `nBytesWritten`. Returns the new state and the
number of bytes sent. -/
def PHY_send (s : PhyState) (dataTX : Nat → byte_t) (nBytesToSend : Int) : PhyState × Int :=
  let s1 := sendPreamble s
  let nBytesSent := sendCount s1 nBytesToSend
  let s2 := forLoop (copyBody dataTX) nBytesSent.toNat s1
  ({ s2 with nBytesWritten := wrapInt (s2.nBytesWritten + nBytesSent) }, nBytesSent)

/-- The received byte with one bit inverted: `byteRX ^= (byte_t)(1 << flip)`. -/
def flipBit (byteRX : byte_t) (flip : Nat) : byte_t :=
  let pattern : byte_t := toByte (1 <<< flip)
  toByte (byteRX.val ^^^ pattern.val)

/-- Body of the copy loop of `PHY_get`: take `buffer[nBytesUsed + i]`, invert
one random bit of it when `rand() < threshold`, and store it in `dataRX[i]`. -/
def getBody (i : Nat) (p : PhyState × (Nat → byte_t)) : PhyState × (Nat → byte_t) :=
  let s := p.1
  let dataRX := p.2
  let byteRX := s.buffer (s.nBytesUsed + (i : Int))
  let (d, s1) := rand s
  if (d : Int) < s1.threshold then
    let (f, s2) := rand s1
    let flip := f % 8
    (s2, setAt dataRX i (flipBit byteRX flip))
  else
    (s1, setAt dataRX i byteRX)

/-- The function `PHY_get`. Returns the new state, the receive array and the
number of bytes received. -/
def PHY_get (s : PhyState) (dataRX : Nat → byte_t) (nBytesToGet : Int) :
    PhyState × (Nat → byte_t) × Int :=
  if nBytesToGet ≤ 0 then (s, dataRX, 0)
  else
    let nBytesAvailable := s.nBytesWritten - s.nBytesUsed
    if nBytesAvailable = 0 then
      let (r, s1) := rand s
      let dataRX1 := setAt dataRX 0 (toByte (r % 256))
      let s2 := if s1.rxTimeLimit = 0 then call_waitms 10000 s1
                else call_waitms s1.rxTimeLimit s1
      (s2, dataRX1, 1)
    else
      let nBytesGot := if nBytesToGet > nBytesAvailable then nBytesAvailable else nBytesToGet
      let p := forLoop getBody nBytesGot.toNat (s, dataRX)
      let s3 : PhyState := { p.1 with nBytesUsed := p.1.nBytesUsed + nBytesGot }
      let s4 : PhyState := if s3.nBytesUsed = s3.nBytesWritten
                then { s3 with nBytesWritten := 0, nBytesUsed := 0 } else s3
      (s4, p.2, nBytesGot)

/-- Cursor invariant: `0 <= nBytesUsed <= nBytesWritten <= BUFSIZE`. -/
def CursorInv (s : PhyState) : Prop :=
  0 ≤ s.nBytesUsed ∧ s.nBytesUsed ≤ s.nBytesWritten ∧ s.nBytesWritten ≤ BUFSIZE

instance (s : PhyState) : Decidable (CursorInv s) := by
  unfold CursorInv; infer_instance

/-- Drained state of the buffer: `writeCursor == readCursor == 0`. -/
def Drained (s : PhyState) : Prop := s.nBytesWritten = 0 ∧ s.nBytesUsed = 0

instance (s : PhyState) : Decidable (Drained s) := by
  unfold Drained; infer_instance

/-- The pointer to the first byte of an array holding the bytes `payload`.
Reading past the end of the array has no meaning in C; here it gives 0. -/
def ptrOf (payload : List byte_t) : Nat → byte_t := fun i => payload.getD i 0

/-- The states a session reaches from the state `s0`, by calls of `PHY_send`
with a non-negative length and calls of `PHY_get`, in any order. A send whose
room check `nBytesWritten + nBytesToSend` leaves the range of `int` is not a
step: the check passes, the copy loop runs past the end of `buffer`, and the
program has no state after it. -/
inductive Reachable (s0 : PhyState) : PhyState → Prop
  | init : Reachable s0 s0
  | send (s : PhyState) (dataTX : Nat → byte_t) (n : Int) :
      Reachable s0 s → 0 ≤ n → (sendPreamble s).nBytesWritten + n ≤ INT_MAX →
      Reachable s0 (PHY_send s dataTX n).1
  | get (s : PhyState) (dataRX : Nat → byte_t) (m : Int) :
      Reachable s0 s → Reachable s0 (PHY_get s dataRX m).1

/-- Number of bit positions, among the eight of a byte, in which `a` and `b`
differ. -/
def bitDistance (a b : byte_t) : Nat :=
  ((List.range 8).filter (fun i => a.val.testBit i != b.val.testBit i)).length

/-- A call made on an open session: a send of the bytes of `payload` (with
their number as length), or a get into `dataRX` of at most `maxCount` bytes. -/
inductive Call
  | send (payload : List byte_t)
  | get (dataRX : Nat → byte_t) (maxCount : Int)

/-- The `len` bytes stored in `buffer` from index `start` on. -/
def slice (buffer : Int → byte_t) (start : Int) (len : Nat) : List byte_t :=
  (List.range len).map (fun (i : Nat) => buffer (start + (i : Int)))

/-- The first `len` bytes of the array `a`. -/
def firstBytes (a : Nat → byte_t) (len : Nat) : List byte_t :=
  (List.range len).map a

/-- The bytes of the buffer written and not read yet:
`buffer[nBytesUsed .. nBytesWritten - 1]`. -/
def pending (s : PhyState) : List byte_t :=
  slice s.buffer s.nBytesUsed (s.nBytesWritten - s.nBytesUsed).toNat

/-- The state after a sequence of calls. -/
def runCalls : PhyState → List Call → PhyState
  | s, [] => s
  | s, Call.send payload :: cs =>
    runCalls (PHY_send s (ptrOf payload) (payload.length : Int)).1 cs
  | s, Call.get dataRX maxCount :: cs => runCalls (PHY_get s dataRX maxCount).1 cs

/-- The bytes a sequence of calls delivers, in order: for every get in the
data-available case, the bytes it stored in its receive array. -/
def deliveredBytes : PhyState → List Call → List byte_t
  | _, [] => []
  | s, Call.send payload :: cs =>
    deliveredBytes (PHY_send s (ptrOf payload) (payload.length : Int)).1 cs
  | s, Call.get dataRX maxCount :: cs =>
    (if 0 < maxCount ∧ s.nBytesWritten - s.nBytesUsed ≠ 0
     then firstBytes (PHY_get s dataRX maxCount).2.1 (PHY_get s dataRX maxCount).2.2.toNat
     else []) ++ deliveredBytes (PHY_get s dataRX maxCount).1 cs

/-- The preamble a send in the state `s` puts in the buffer: the random bytes
at the start of the frame when the send starts one, nothing otherwise. -/
def preambleBytes (s : PhyState) : List byte_t :=
  if s.nBytesWritten = 0
  then slice (sendPreamble s).buffer 0 (sendPreamble s).nBytesWritten.toNat
  else []

/-- The bytes passed to the sends of a sequence of calls, in order, with the
preamble of each frame before the first payload of the frame. -/
def sentBytes : PhyState → List Call → List byte_t
  | _, [] => []
  | s, Call.send payload :: cs =>
    preambleBytes s ++ payload ++
      sentBytes (PHY_send s (ptrOf payload) (payload.length : Int)).1 cs
  | s, Call.get dataRX maxCount :: cs => sentBytes (PHY_get s dataRX maxCount).1 cs

/-- No send of the sequence of calls is truncated: each finds room for all
its bytes after the write cursor. -/
def noTruncation : PhyState → List Call → Bool
  | _, [] => true
  | s, Call.send payload :: cs =>
    decide ((sendPreamble s).nBytesWritten + (payload.length : Int) ≤ BUFSIZE) &&
      noTruncation (PHY_send s (ptrOf payload) (payload.length : Int)).1 cs
  | s, Call.get dataRX maxCount :: cs => noTruncation (PHY_get s dataRX maxCount).1 cs

/-- Position in the random stream at the start of iteration `i` of the copy
loop of `PHY_get`, when the loop starts at position `p0`: an iteration draws
one value, and a second one when the first is below the threshold. -/
def drawPos (rnd : Nat → Nat) (threshold : Int) (p0 : Nat) : Nat → Nat
  | 0 => p0
  | i + 1 =>
    if (rnd (drawPos rnd threshold p0 i) : Int) < threshold
    then drawPos rnd threshold p0 i + 2 else drawPos rnd threshold p0 i + 1

/-- The byte iteration `i` of the copy loop of `PHY_get` delivers: the stored
byte, with one bit inverted when the draw of the iteration is below the
threshold. -/
def deliveredByte (s : PhyState) (i : Nat) : byte_t :=
  if (s.rnd (drawPos s.rnd s.threshold s.rpos i) : Int) < s.threshold
  then flipBit (s.buffer (s.nBytesUsed + (i : Int)))
         (s.rnd (drawPos s.rnd s.threshold s.rpos i + 1) % 8)
  else s.buffer (s.nBytesUsed + (i : Int))

/-! ## The timed wait

The library clock is a stream `clock : Nat → Int` of readings and a position:
the `i`-th call of `clock()` returns `clock i`. `CLOCKS_PER_SEC` is a
parameter. The loop `while (clock() < endTick);` may spin for ever, so it is
given a bound on the number of readings; `none` stands for a wait that has
not returned within the bound. -/

/-- The loop `while (clock() < endTick);` of `waitms`, from the position `pos`
of the clock stream, reading at most `fuel` values: the position after the
reading that ends the loop. -/
def waitms_loop (clock : Nat → Int) (endTick : Int) : Nat → Nat → Option Nat
  | 0, _ => none
  | fuel + 1, pos =>
    if clock pos < endTick then waitms_loop clock endTick fuel (pos + 1)
    else some (pos + 1)

/-- The function `waitms`: computes the delay in ticks and the end tick from a
first reading of the clock, then spins until a reading reaches the end tick.
Returns the position in the clock stream at the return. -/
def waitms (CLOCKS_PER_SEC : Int) (clock : Nat → Int) (fuel pos : Nat) (delay_ms : Int) :
    Option Nat :=
  let delayTick := Int.tdiv (delay_ms * CLOCKS_PER_SEC) 1000
  let endTick := clock pos + delayTick
  waitms_loop clock endTick fuel (pos + 1)

/-! ## Checked indexing

A second embedding of `PHY_send` and `PHY_get` in which every array access
checks its index: `buffer` has `BUFSIZE` elements, and the arrays behind
`dataTX` and `dataRX` have the sizes given. An access out of range gives
`none`. -/

/-- The loop `for (i = 0; i < n; i++) body` with a body that can fail. -/
def forLoopM {σ : Type} (body : Nat → σ → Option σ) : Nat → σ → Option σ
  | 0, s => some s
  | k + 1, s => (forLoopM body k s).bind (body k)

/-- Checked `buffer[i] = v`. -/
def writeBuffer (s : PhyState) (i : Int) (v : byte_t) : Option PhyState :=
  if 0 ≤ i ∧ i < BUFSIZE then some { s with buffer := setAt s.buffer i v } else none

/-- Checked read of `buffer[i]`. -/
def readBuffer (s : PhyState) (i : Int) : Option byte_t :=
  if 0 ≤ i ∧ i < BUFSIZE then some (s.buffer i) else none

/-- Checked read of `a[i]` in an array of `size` elements. -/
def readArray (a : Nat → byte_t) (size : Int) (i : Nat) : Option byte_t :=
  if (i : Int) < size then some (a i) else none

/-- Checked `a[i] = v` in an array of `size` elements. -/
def writeArray (a : Nat → byte_t) (size : Int) (i : Nat) (v : byte_t) :
    Option (Nat → byte_t) :=
  if (i : Int) < size then some (setAt a i v) else none

/-- Body of the preamble loop of `PHY_send`, with checked indexing. -/
def preambleBody_checked (i : Nat) (s : PhyState) : Option PhyState :=
  let (r, s1) := rand s
  writeBuffer s1 (i : Int) (toByte (r % 200))

/-- First block of `PHY_send`, with checked indexing. -/
def sendPreamble_checked (s : PhyState) : Option PhyState :=
  if s.nBytesWritten = 0 then
    let (r, s1) := rand s
    let s2 := { s1 with nBytesWritten := 2 + ((r % 10 : Nat) : Int) }
    forLoopM preambleBody_checked s2.nBytesWritten.toNat s2
  else some s

/-- Body of the copy loop of `PHY_send`, with checked indexing. -/
def copyBody_checked (dataTX : Nat → byte_t) (sizeTX : Int) (i : Nat) (s : PhyState) :
    Option PhyState :=
  (readArray dataTX sizeTX i).bind fun v => writeBuffer s (s.nBytesWritten + (i : Int)) v

/-- The function `PHY_send` with checked indexing, for an array `dataTX` of
`sizeTX` bytes. -/
def PHY_send_checked (s : PhyState) (dataTX : Nat → byte_t) (sizeTX : Int)
    (nBytesToSend : Int) : Option (PhyState × Int) :=
  (sendPreamble_checked s).bind fun s1 =>
    let nBytesSent := sendCount s1 nBytesToSend
    (forLoopM (copyBody_checked dataTX sizeTX) nBytesSent.toNat s1).bind fun s2 =>
      some ({ s2 with nBytesWritten := wrapInt (s2.nBytesWritten + nBytesSent) }, nBytesSent)

/-- Body of the copy loop of `PHY_get`, with checked indexing. -/
def getBody_checked (sizeRX : Int) (i : Nat) (p : PhyState × (Nat → byte_t)) :
    Option (PhyState × (Nat → byte_t)) :=
  let s := p.1
  let dataRX := p.2
  (readBuffer s (s.nBytesUsed + (i : Int))).bind fun byteRX =>
    let (d, s1) := rand s
    if (d : Int) < s1.threshold then
      let (f, s2) := rand s1
      let flip := f % 8
      (writeArray dataRX sizeRX i (flipBit byteRX flip)).bind fun rx => some (s2, rx)
    else
      (writeArray dataRX sizeRX i byteRX).bind fun rx => some (s1, rx)

/-- The function `PHY_get` with checked indexing, for an array `dataRX` of
`sizeRX` bytes. -/
def PHY_get_checked (s : PhyState) (dataRX : Nat → byte_t) (sizeRX : Int)
    (nBytesToGet : Int) : Option (PhyState × (Nat → byte_t) × Int) :=
  if nBytesToGet ≤ 0 then some (s, dataRX, 0)
  else
    let nBytesAvailable := s.nBytesWritten - s.nBytesUsed
    if nBytesAvailable = 0 then
      let (r, s1) := rand s
      (writeArray dataRX sizeRX 0 (toByte (r % 256))).bind fun dataRX1 =>
        let s2 := if s1.rxTimeLimit = 0 then call_waitms 10000 s1
                  else call_waitms s1.rxTimeLimit s1
        some (s2, dataRX1, 1)
    else
      let nBytesGot := if nBytesToGet > nBytesAvailable then nBytesAvailable else nBytesToGet
      (forLoopM (getBody_checked sizeRX) nBytesGot.toNat (s, dataRX)).bind fun p =>
        let s3 : PhyState := { p.1 with nBytesUsed := p.1.nBytesUsed + nBytesGot }
        let s4 : PhyState := if s3.nBytesUsed = s3.nBytesWritten
                  then { s3 with nBytesWritten := 0, nBytesUsed := 0 } else s3
        some (s4, p.2, nBytesGot)

/-! ## Example states used to instantiate the theorems -/

/-- An example state: a buffer of zeros holding five bytes, two of them read,
with the generator on the stream `3, 10, 17, ...`. -/
def exState : PhyState :=
  { buffer := fun _ => 0
    nBytesWritten := 5
    nBytesUsed := 2
    rxTimeLimit := 40
    threshold := 0
    rnd := fun i => 7 * i + 3
    rpos := 0
    waits := [] }

/-- An example state with a drained buffer. -/
def exDrained : PhyState :=
  { exState with nBytesWritten := 0, nBytesUsed := 0 }

/-- The payload of the spec's scenario: `[0x41, 0x42, 0x43]`. -/
def exPayload : List byte_t := [0x41, 0x42, 0x43]

/-- An example state of an open session: opened with `RAND_MAX = 32767` and
the probability of error 1, with the example payload sent and not read. -/
def exBusy : PhyState :=
  (PHY_send (PHY_open 32767 (fun i => 7 * i + 3) exState 1 9600 8 0 30 10 1).1
    (ptrOf exPayload) 3).1

/-- The example state with the threshold 100, above the first draws of its
stream. -/
def exNoisy : PhyState := { exState with threshold := 100 }

/-- An example clock: a reading every 10 ticks. -/
def exClock : Nat → Int := fun i => 10 * (i : Int)

/-- An example random stream with values between 0 and 32767. -/
def exSeed : Nat → Nat := fun i => (7 * i + 3) % 32768

/-- The example session on a platform with `RAND_MAX = 2147483647`, opened
with the probability of error 1.0. -/
def exOpenedMax : PhyState :=
  (PHY_open 2147483647 exSeed exState 1 9600 8 0 30 10 1).1

/-- The state of `exOpenedMax` after a send of the example payload. -/
def exSentMax : PhyState := (PHY_send exOpenedMax (ptrOf exPayload) 3).1

/-- The example session on a platform with `RAND_MAX = 2147483647`, opened
with the probability of error 0.125. -/
def exOpenedEighth : PhyState :=
  (PHY_open 2147483647 exSeed exState 1 9600 8 0 30 10 (double.fin false 1 (-3))).1

/-- The state of `exOpenedEighth` after a send of the example payload. -/
def exSentEighth : PhyState := (PHY_send exOpenedEighth (ptrOf exPayload) 3).1

/-- An example array for a send of 2147483647 bytes: every byte is `0x41`. -/
def exBig : Nat → byte_t := fun _ => 0x41


/-- The calls of the example session: a send of the example payload, a get of
at most two bytes, a second send and a get of at most 100 bytes. -/
def exCalls : List Call :=
  [Call.send exPayload, Call.get (fun _ => 0) 2, Call.send exPayload, Call.get (fun _ => 0) 100]

/-! ## The loops in closed form -/

theorem forLoop_preambleBody (k : Nat) (s : PhyState) :
    forLoop preambleBody k s =
      { s with
        rpos := s.rpos + k
        buffer := fun j =>
          if 0 ≤ j ∧ j < (k : Int) then toByte (s.rnd (s.rpos + j.toNat) % 200)
          else s.buffer j } := by
  induction k with
  | zero =>
    cases s
    simp only [forLoop, PhyState.mk.injEq, true_and, and_true, Nat.add_zero]
    funext j
    split_ifs with h
    · omega
    · rfl
  | succ k ih =>
    simp only [forLoop, ih, preambleBody, rand, setAt, PhyState.mk.injEq, true_and, and_true]
    refine ⟨?_, by omega⟩
    funext j
    simp only [setAt]
    split_ifs with h1 <;> first | rfl | (exfalso; omega) | skip
    subst h1
    simp

theorem forLoop_copyBody (dataTX : Nat → byte_t) (k : Nat) (s : PhyState) :
    forLoop (copyBody dataTX) k s =
      { s with
        buffer := fun j =>
          if s.nBytesWritten ≤ j ∧ j < s.nBytesWritten + (k : Int)
          then dataTX (j - s.nBytesWritten).toNat
          else s.buffer j } := by
  induction k with
  | zero =>
    cases s
    simp only [forLoop, PhyState.mk.injEq, true_and, and_true]
    funext j
    split_ifs with h
    · omega
    · rfl
  | succ k ih =>
    simp only [forLoop, ih, copyBody, setAt, PhyState.mk.injEq, true_and, and_true]
    funext j
    simp only [setAt]
    split_ifs with h1 <;> first | rfl | (exfalso; omega) | skip
    subst h1
    simp

theorem forLoop_getBody (k : Nat) (s : PhyState) (dataRX : Nat → byte_t) :
    forLoop getBody k (s, dataRX) =
      ({ s with rpos := drawPos s.rnd s.threshold s.rpos k },
       fun j => if j < k then deliveredByte s j else dataRX j) := by
  induction k with
  | zero =>
    cases s
    simp [forLoop, drawPos]
  | succ k ih =>
    simp only [forLoop, ih, getBody, rand, drawPos]
    by_cases h : (s.rnd (drawPos s.rnd s.threshold s.rpos k) : Int) < s.threshold
    · simp only [h, if_true, Prod.mk.injEq, true_and]
      funext j
      by_cases h1 : j = k
      · subst h1
        simp [setAt, deliveredByte, h]
      · by_cases h2 : j < k
        · have : j < k + 1 := by omega
          simp [setAt, h1, h2, this]
        · have : ¬ j < k + 1 := by omega
          simp [setAt, h1, h2, this]
    · simp only [h, if_false, Prod.mk.injEq, true_and]
      funext j
      by_cases h1 : j = k
      · subst h1
        simp [setAt, deliveredByte, h]
      · by_cases h2 : j < k
        · have : j < k + 1 := by omega
          simp [setAt, h1, h2, this]
        · have : ¬ j < k + 1 := by omega
          simp [setAt, h1, h2, this]

/-! ## `PHY_send` and `PHY_get` in closed form -/

theorem sendPreamble_of_ne (s : PhyState) (h : s.nBytesWritten ≠ 0) : sendPreamble s = s := by
  simp [sendPreamble, h]

theorem sendPreamble_of_eq (s : PhyState) (h : s.nBytesWritten = 0) :
    sendPreamble s =
      { s with
        nBytesWritten := 2 + ((s.rnd s.rpos % 10 : Nat) : Int)
        rpos := s.rpos + 1 + (2 + s.rnd s.rpos % 10)
        buffer := fun j =>
          if 0 ≤ j ∧ j < 2 + ((s.rnd s.rpos % 10 : Nat) : Int)
          then toByte (s.rnd (s.rpos + 1 + j.toNat) % 200)
          else s.buffer j } := by
  have e : (2 + ((s.rnd s.rpos % 10 : Nat) : Int)).toNat = 2 + s.rnd s.rpos % 10 := by omega
  simp only [sendPreamble, h, if_true, rand, forLoop_preambleBody, e, PhyState.mk.injEq,
    true_and, and_true]
  funext j
  have e2 : ((2 + s.rnd s.rpos % 10 : Nat) : Int) = 2 + ((s.rnd s.rpos % 10 : Nat) : Int) := by
    omega
  rw [e2]

theorem sendPreamble_ne_self (s : PhyState) (h : s.nBytesWritten = 0) : sendPreamble s ≠ s := by
  intro heq
  have := congrArg PhyState.rpos heq
  rw [sendPreamble_of_eq s h] at this
  simp only at this
  omega

theorem sendPreamble_frame (s : PhyState) :
    (sendPreamble s).nBytesUsed = s.nBytesUsed ∧
    (sendPreamble s).rxTimeLimit = s.rxTimeLimit ∧
    (sendPreamble s).threshold = s.threshold ∧
    (sendPreamble s).rnd = s.rnd ∧
    (sendPreamble s).waits = s.waits := by
  by_cases h : s.nBytesWritten = 0
  · rw [sendPreamble_of_eq s h]; simp
  · rw [sendPreamble_of_ne s h]; simp

theorem sendPreamble_cursor (s : PhyState) (hinv : CursorInv s) :
    CursorInv (sendPreamble s) ∧ 0 < (sendPreamble s).nBytesWritten := by
  obtain ⟨h1, h2, h3⟩ := hinv
  unfold BUFSIZE at h3
  by_cases h : s.nBytesWritten = 0
  · rw [sendPreamble_of_eq s h]
    simp only [CursorInv, BUFSIZE]
    omega
  · rw [sendPreamble_of_ne s h]
    simp only [CursorInv, BUFSIZE]
    omega

theorem PHY_send_fst (s : PhyState) (dataTX : Nat → byte_t) (n : Int) :
    (PHY_send s dataTX n).1 =
      { sendPreamble s with
        buffer := fun j =>
          if (sendPreamble s).nBytesWritten ≤ j ∧
              j < (sendPreamble s).nBytesWritten + ((sendCount (sendPreamble s) n).toNat : Int)
          then dataTX (j - (sendPreamble s).nBytesWritten).toNat
          else (sendPreamble s).buffer j
        nBytesWritten :=
          wrapInt ((sendPreamble s).nBytesWritten + sendCount (sendPreamble s) n) } := by
  simp only [PHY_send, forLoop_copyBody]

theorem PHY_send_snd (s : PhyState) (dataTX : Nat → byte_t) (n : Int) :
    (PHY_send s dataTX n).2 = sendCount (sendPreamble s) n := rfl

theorem wrapInt_of_fit (x : Int) (h1 : INT_MIN ≤ x) (h2 : x ≤ INT_MAX) : wrapInt x = x := by
  unfold INT_MIN at h1
  unfold INT_MAX at h2
  unfold wrapInt
  omega

theorem sendCount_bounds (s : PhyState) (n : Int) (h0 : 0 ≤ s.nBytesWritten)
    (hw : s.nBytesWritten ≤ BUFSIZE) (hn : 0 ≤ n) (hfit : s.nBytesWritten + n ≤ INT_MAX) :
    0 ≤ sendCount s n ∧ sendCount s n ≤ n ∧ sendCount s n ≤ BUFSIZE - s.nBytesWritten ∧
    (s.nBytesWritten + n > BUFSIZE → sendCount s n = BUFSIZE - s.nBytesWritten) ∧
    (s.nBytesWritten + n ≤ BUFSIZE → sendCount s n = n) := by
  unfold BUFSIZE at *
  unfold INT_MAX at hfit
  unfold sendCount wrapInt BUFSIZE
  split_ifs with h
  · refine ⟨?_, ?_, ?_, fun _ => ?_, fun _ => ?_⟩ <;> omega
  · refine ⟨?_, ?_, ?_, fun _ => ?_, fun _ => ?_⟩ <;> omega

/-- The number of bytes `PHY_get` delivers when bytes are available. -/
theorem PHY_get_of_avail (s : PhyState) (dataRX : Nat → byte_t) (m : Int) (hm : 0 < m)
    (ha : s.nBytesWritten - s.nBytesUsed ≠ 0) :
    PHY_get s dataRX m =
      (if s.nBytesUsed + min (s.nBytesWritten - s.nBytesUsed) m = s.nBytesWritten
       then { s with
              rpos := drawPos s.rnd s.threshold s.rpos (min (s.nBytesWritten - s.nBytesUsed) m).toNat
              nBytesWritten := 0
              nBytesUsed := 0 }
       else { s with
              rpos := drawPos s.rnd s.threshold s.rpos (min (s.nBytesWritten - s.nBytesUsed) m).toNat
              nBytesUsed := s.nBytesUsed + min (s.nBytesWritten - s.nBytesUsed) m },
       fun j => if j < (min (s.nBytesWritten - s.nBytesUsed) m).toNat
                then deliveredByte s j else dataRX j,
       min (s.nBytesWritten - s.nBytesUsed) m) := by
  have e : (if m > s.nBytesWritten - s.nBytesUsed then s.nBytesWritten - s.nBytesUsed else m)
      = min (s.nBytesWritten - s.nBytesUsed) m := by
    split_ifs with h
    · exact (min_eq_left (le_of_lt h)).symm
    · exact (min_eq_right (not_lt.mp h)).symm
  have hm' : ¬ m ≤ 0 := by omega
  simp only [PHY_get, hm', if_false, ha, e, forLoop_getBody]

theorem PHY_get_of_starved (s : PhyState) (dataRX : Nat → byte_t) (m : Int) (hm : 0 < m)
    (ha : s.nBytesWritten = s.nBytesUsed) :
    PHY_get s dataRX m =
      ({ s with
         rpos := s.rpos + 1
         waits := s.waits ++ [if s.rxTimeLimit = 0 then 10000 else s.rxTimeLimit] },
       setAt dataRX 0 (toByte (s.rnd s.rpos % 256)), 1) := by
  have hm' : ¬ m ≤ 0 := by omega
  have ha' : s.nBytesWritten - s.nBytesUsed = 0 := by omega
  simp only [PHY_get, hm', if_false, ha', if_true, rand, call_waitms]
  split_ifs <;> rfl

theorem PHY_get_of_nonpos (s : PhyState) (dataRX : Nat → byte_t) (m : Int) (hm : m ≤ 0) :
    PHY_get s dataRX m = (s, dataRX, 0) := by
  simp [PHY_get, hm]

theorem PHY_send_frame (s : PhyState) (dataTX : Nat → byte_t) (n : Int) :
    (PHY_send s dataTX n).1.nBytesUsed = s.nBytesUsed ∧
    (PHY_send s dataTX n).1.rxTimeLimit = s.rxTimeLimit ∧
    (PHY_send s dataTX n).1.threshold = s.threshold ∧
    (PHY_send s dataTX n).1.rnd = s.rnd ∧
    (PHY_send s dataTX n).1.waits = s.waits := by
  rw [PHY_send_fst]
  exact sendPreamble_frame s

theorem PHY_get_frame (s : PhyState) (dataRX : Nat → byte_t) (m : Int) :
    (PHY_get s dataRX m).1.buffer = s.buffer ∧
    (PHY_get s dataRX m).1.rxTimeLimit = s.rxTimeLimit ∧
    (PHY_get s dataRX m).1.threshold = s.threshold ∧
    (PHY_get s dataRX m).1.rnd = s.rnd := by
  by_cases hm : m ≤ 0
  · rw [PHY_get_of_nonpos s dataRX m hm]; simp
  · by_cases ha : s.nBytesWritten = s.nBytesUsed
    · rw [PHY_get_of_starved s dataRX m (by omega) ha]; simp
    · rw [PHY_get_of_avail s dataRX m (by omega) (by omega)]
      split_ifs <;> simp

theorem Reachable.frame {s0 s : PhyState} (h : Reachable s0 s) :
    s.rxTimeLimit = s0.rxTimeLimit ∧ s.threshold = s0.threshold ∧ s.rnd = s0.rnd := by
  induction h with
  | init => exact ⟨rfl, rfl, rfl⟩
  | send s dataTX n _ _ _ ih =>
    obtain ⟨_, h2, h3, h4, _⟩ := PHY_send_frame s dataTX n
    exact ⟨h2.trans ih.1, h3.trans ih.2.1, h4.trans ih.2.2⟩
  | get s dataRX m _ ih =>
    obtain ⟨_, h2, h3, h4⟩ := PHY_get_frame s dataRX m
    exact ⟨h2.trans ih.1, h3.trans ih.2.1, h4.trans ih.2.2⟩

theorem PHY_send_buffer_at (s : PhyState) (dataTX : Nat → byte_t) (n : Int) (i : Nat)
    (hi : (i : Int) < sendCount (sendPreamble s) n) :
    (PHY_send s dataTX n).1.buffer ((sendPreamble s).nBytesWritten + (i : Int)) = dataTX i := by
  rw [PHY_send_fst]
  have hc : (sendPreamble s).nBytesWritten ≤ (sendPreamble s).nBytesWritten + (i : Int) ∧
      (sendPreamble s).nBytesWritten + (i : Int) <
        (sendPreamble s).nBytesWritten + ((sendCount (sendPreamble s) n).toNat : Int) := by
    omega
  have e : ((sendPreamble s).nBytesWritten + (i : Int)
      - (sendPreamble s).nBytesWritten).toNat = i := by omega
  simp only [hc, and_self, if_true, e]

theorem PHY_send_buffer_below (s : PhyState) (dataTX : Nat → byte_t) (n : Int) (j : Int)
    (hj : j < (sendPreamble s).nBytesWritten) :
    (PHY_send s dataTX n).1.buffer j = (sendPreamble s).buffer j := by
  rw [PHY_send_fst]
  have hc : ¬ ((sendPreamble s).nBytesWritten ≤ j ∧ j <
      (sendPreamble s).nBytesWritten + ((sendCount (sendPreamble s) n).toNat : Int)) := by
    omega
  simp only [hc, if_false]

theorem PHY_send_nBytesWritten (s : PhyState) (dataTX : Nat → byte_t) (n : Int) :
    (PHY_send s dataTX n).1.nBytesWritten =
      wrapInt ((sendPreamble s).nBytesWritten + sendCount (sendPreamble s) n) := by
  rw [PHY_send_fst]

theorem PHY_send_nBytesWritten_of_fit (s : PhyState) (dataTX : Nat → byte_t) (n : Int)
    (hinv : CursorInv s) (hn : 0 ≤ n) (hfit : (sendPreamble s).nBytesWritten + n ≤ INT_MAX) :
    (PHY_send s dataTX n).1.nBytesWritten =
      (sendPreamble s).nBytesWritten + sendCount (sendPreamble s) n := by
  obtain ⟨⟨h1, h2, h3⟩, h4⟩ := sendPreamble_cursor s hinv
  obtain ⟨c1, c2, c3, _, _⟩ := sendCount_bounds (sendPreamble s) n (by omega) h3 hn hfit
  rw [PHY_send_nBytesWritten]
  apply wrapInt_of_fit
  · unfold INT_MIN; omega
  · unfold BUFSIZE at c3 h3; unfold INT_MAX; omega

theorem sendCount_of_room (s : PhyState) (n : Int) (h0 : 0 ≤ s.nBytesWritten) (hn : 0 ≤ n)
    (h : s.nBytesWritten + n ≤ BUFSIZE) :
    sendCount s n = n := by
  unfold BUFSIZE at h
  unfold sendCount wrapInt BUFSIZE
  rw [if_neg (by omega)]

theorem ptrOf_getElem (payload : List byte_t) (i : Nat) (h : i < payload.length) :
    ptrOf payload i = payload[i] := by
  simp only [ptrOf]
  exact List.getD_eq_getElem payload 0 h

/-! ## The error injector -/

theorem drawPos_of_threshold_nonpos (rnd : Nat → Nat) (threshold : Int) (p0 : Nat)
    (h : threshold ≤ 0) (i : Nat) : drawPos rnd threshold p0 i = p0 + i := by
  induction i with
  | zero => rfl
  | succ i ih =>
    have : ¬ ((rnd (p0 + i) : Int) < threshold) := by omega
    simp only [drawPos, ih, this, if_false]
    omega

theorem deliveredByte_of_threshold_nonpos (s : PhyState) (h : s.threshold ≤ 0) (i : Nat) :
    deliveredByte s i = s.buffer (s.nBytesUsed + (i : Int)) := by
  unfold deliveredByte
  rw [if_neg (by omega)]

theorem deliveredByte_of_lt (s : PhyState) (h : ∀ j, (s.rnd j : Int) < s.threshold) (i : Nat) :
    deliveredByte s i =
      flipBit (s.buffer (s.nBytesUsed + (i : Int)))
        (s.rnd (drawPos s.rnd s.threshold s.rpos i + 1) % 8) := by
  unfold deliveredByte
  rw [if_pos (h _)]

set_option maxRecDepth 100000 in
theorem bitDistance_flipBit_fin :
    ∀ (b : Fin 256) (f : Fin 8), bitDistance (flipBit b f.val) b = 1 := by
  decide

theorem bitDistance_flipBit (b : byte_t) (f : Nat) :
    bitDistance (flipBit b (f % 8)) b = 1 :=
  bitDistance_flipBit_fin b ⟨f % 8, Nat.mod_lt f (by decide)⟩

/-! ## The state after `PHY_open` -/

theorem PHY_open_fields (RAND_MAX : Nat) (seeded : Nat → Nat) (s : PhyState)
    (portNum bitRate nDataBits parity rxTimeConst rxTimeIntv : Int) (probErr : double) :
    (PHY_open RAND_MAX seeded s portNum bitRate nDataBits parity
      rxTimeConst rxTimeIntv probErr).1.nBytesWritten = 0 ∧
    (PHY_open RAND_MAX seeded s portNum bitRate nDataBits parity
      rxTimeConst rxTimeIntv probErr).1.nBytesUsed = 0 ∧
    (PHY_open RAND_MAX seeded s portNum bitRate nDataBits parity
      rxTimeConst rxTimeIntv probErr).1.rxTimeLimit = wrapInt (rxTimeConst + rxTimeIntv) ∧
    (PHY_open RAND_MAX seeded s portNum bitRate nDataBits parity
      rxTimeConst rxTimeIntv probErr).1.rnd = seeded ∧
    (PHY_open RAND_MAX seeded s portNum bitRate nDataBits parity
      rxTimeConst rxTimeIntv probErr).1.rpos = 0 := by
  simp only [PHY_open, srand]
  split_ifs <;> exact ⟨rfl, rfl, rfl, rfl, rfl⟩

theorem PHY_open_threshold_zero (RAND_MAX : Nat) (seeded : Nat → Nat) (s : PhyState)
    (portNum bitRate nDataBits parity rxTimeConst rxTimeIntv : Int) :
    (PHY_open RAND_MAX seeded s portNum bitRate nDataBits parity
      rxTimeConst rxTimeIntv 0).1.threshold = 0 := by
  have h1 : double.lt 0 0 = false := by decide
  have h2 : double.lt 1 0 = false := by decide
  have h3 : double.ne 0 0 = false := by decide
  simp [PHY_open, srand, h1, h2, h3]

/-! ## The cursor invariant -/

theorem PHY_open_cursorInv (RAND_MAX : Nat) (seeded : Nat → Nat) (s : PhyState)
    (portNum bitRate nDataBits parity rxTimeConst rxTimeIntv : Int) (probErr : double) :
    CursorInv (PHY_open RAND_MAX seeded s portNum bitRate nDataBits parity
      rxTimeConst rxTimeIntv probErr).1 := by
  simp only [PHY_open, srand, CursorInv, BUFSIZE]
  split_ifs <;> simp

theorem PHY_send_cursorInv (s : PhyState) (dataTX : Nat → byte_t) (n : Int)
    (hinv : CursorInv s) (hn : 0 ≤ n)
    (hfit : (sendPreamble s).nBytesWritten + n ≤ INT_MAX) :
    CursorInv (PHY_send s dataTX n).1 := by
  obtain ⟨⟨h1, h2, h3⟩, _⟩ := sendPreamble_cursor s hinv
  obtain ⟨c1, c2, c3, _, _⟩ := sendCount_bounds (sendPreamble s) n (by omega) h3 hn hfit
  have hw := PHY_send_nBytesWritten_of_fit s dataTX n hinv hn hfit
  have hu := (PHY_send_frame s dataTX n).1
  have hu' := (sendPreamble_frame s).1
  simp only [CursorInv] at *
  omega

theorem PHY_get_cursorInv (s : PhyState) (dataRX : Nat → byte_t) (m : Int)
    (hinv : CursorInv s) : CursorInv (PHY_get s dataRX m).1 := by
  obtain ⟨h1, h2, h3⟩ := hinv
  by_cases hm : m ≤ 0
  · rw [PHY_get_of_nonpos s dataRX m hm]; exact ⟨h1, h2, h3⟩
  · by_cases ha : s.nBytesWritten = s.nBytesUsed
    · rw [PHY_get_of_starved s dataRX m (by omega) ha]; exact ⟨h1, h2, h3⟩
    · rw [PHY_get_of_avail s dataRX m (by omega) (by omega)]
      simp only [CursorInv, BUFSIZE] at *
      split_ifs with h
      · simp
      · simp only
        omega

/-! ## The bytes on the wire -/

theorem slice_add (buffer : Int → byte_t) (start : Int) (m n : Nat) :
    slice buffer start (m + n) = slice buffer start m ++ slice buffer (start + (m : Int)) n := by
  simp only [slice, List.range_add, List.map_append, List.map_map]
  congr 1
  apply List.map_congr_left
  intro i _
  simp only [Function.comp_apply]
  congr 1
  push_cast
  ring

theorem slice_congr (b1 b2 : Int → byte_t) (start : Int) (len : Nat)
    (h : ∀ i : Nat, i < len → b1 (start + (i : Int)) = b2 (start + (i : Int))) :
    slice b1 start len = slice b2 start len := by
  simp only [slice]
  apply List.map_congr_left
  intro i hi
  exact h i (List.mem_range.mp hi)

theorem slice_zero (buffer : Int → byte_t) (start : Int) : slice buffer start 0 = [] := rfl

theorem slice_eq_list (buffer : Int → byte_t) (start : Int) (l : List byte_t)
    (h : ∀ (i : Nat) (hi : i < l.length), buffer (start + (i : Int)) = l[i]) :
    slice buffer start l.length = l := by
  apply List.ext_getElem
  · simp [slice]
  · intro i h1 h2
    simp only [slice, List.getElem_map, List.getElem_range]
    exact h i h2

theorem pending_sendPreamble (s : PhyState) (hinv : CursorInv s) :
    pending (sendPreamble s) = pending s ++ preambleBytes s := by
  obtain ⟨a, b, _⟩ := hinv
  by_cases h : s.nBytesWritten = 0
  · have hu : s.nBytesUsed = 0 := by omega
    have hu' : (sendPreamble s).nBytesUsed = 0 := (sendPreamble_frame s).1.trans hu
    simp only [pending, preambleBytes, h, hu, hu', if_true, sub_zero, Int.toNat_zero,
      slice_zero, List.nil_append]
  · simp only [preambleBytes, h, if_false, List.append_nil]
    rw [sendPreamble_of_ne s h]

theorem pending_PHY_send (s : PhyState) (payload : List byte_t) (hinv : CursorInv s)
    (hroom : (sendPreamble s).nBytesWritten + (payload.length : Int) ≤ BUFSIZE) :
    pending (PHY_send s (ptrOf payload) (payload.length : Int)).1 =
      pending s ++ preambleBytes s ++ payload := by
  obtain ⟨⟨h1, h2, h3⟩, h4⟩ := sendPreamble_cursor s hinv
  have hcount := sendCount_of_room (sendPreamble s) (payload.length : Int) (by omega)
    (by omega) hroom
  have hu : (PHY_send s (ptrOf payload) (payload.length : Int)).1.nBytesUsed
      = (sendPreamble s).nBytesUsed :=
    (PHY_send_frame s (ptrOf payload) (payload.length : Int)).1.trans (sendPreamble_frame s).1.symm
  have hw := PHY_send_nBytesWritten_of_fit s (ptrOf payload) (payload.length : Int) hinv
    (by omega) (by unfold BUFSIZE at hroom; unfold INT_MAX; omega)
  rw [hcount] at hw
  rw [← pending_sendPreamble s hinv]
  have e : ((sendPreamble s).nBytesWritten + (payload.length : Int)
      - (sendPreamble s).nBytesUsed).toNat
      = ((sendPreamble s).nBytesWritten - (sendPreamble s).nBytesUsed).toNat + payload.length := by
    omega
  have e2 : (sendPreamble s).nBytesUsed +
      ((((sendPreamble s).nBytesWritten - (sendPreamble s).nBytesUsed).toNat : Nat) : Int)
      = (sendPreamble s).nBytesWritten := by omega
  simp only [pending, hu, hw, e, slice_add, e2]
  congr 1
  · apply slice_congr
    intro i hi
    exact PHY_send_buffer_below s _ _ _ (by omega)
  · apply slice_eq_list
    intro i hi
    rw [PHY_send_buffer_at s _ _ i (by rw [hcount]; omega), ptrOf_getElem payload i hi]

theorem pending_PHY_get (s : PhyState) (dataRX : Nat → byte_t) (m : Int)
    (hinv : CursorInv s) (hthr : s.threshold ≤ 0) :
    (if 0 < m ∧ s.nBytesWritten - s.nBytesUsed ≠ 0
     then firstBytes (PHY_get s dataRX m).2.1 (PHY_get s dataRX m).2.2.toNat
     else []) ++ pending (PHY_get s dataRX m).1 = pending s := by
  obtain ⟨h1, h2, h3⟩ := hinv
  by_cases hm : m ≤ 0
  · have : ¬ (0 < m ∧ s.nBytesWritten - s.nBytesUsed ≠ 0) := by omega
    rw [if_neg this, PHY_get_of_nonpos s dataRX m hm]
    rfl
  · by_cases ha : s.nBytesWritten = s.nBytesUsed
    · have : ¬ (0 < m ∧ s.nBytesWritten - s.nBytesUsed ≠ 0) := by omega
      rw [if_neg this, PHY_get_of_starved s dataRX m (by omega) ha]
      rfl
    · have hc : 0 < m ∧ s.nBytesWritten - s.nBytesUsed ≠ 0 := by omega
      rw [if_pos hc, PHY_get_of_avail s dataRX m (by omega) (by omega)]
      have hg1 : 0 < min (s.nBytesWritten - s.nBytesUsed) m := lt_min (by omega) (by omega)
      have hg2 : min (s.nBytesWritten - s.nBytesUsed) m ≤ s.nBytesWritten - s.nBytesUsed :=
        min_le_left _ _
      generalize min (s.nBytesWritten - s.nBytesUsed) m = g at hg1 hg2
      have hfirst : firstBytes (fun j => if j < g.toNat then deliveredByte s j else dataRX j)
          g.toNat = slice s.buffer s.nBytesUsed g.toNat := by
        simp only [firstBytes, slice]
        apply List.map_congr_left
        intro i hi
        rw [if_pos (List.mem_range.mp hi), deliveredByte_of_threshold_nonpos s hthr]
      have esplit : (s.nBytesWritten - s.nBytesUsed).toNat
          = g.toNat + (s.nBytesWritten - (s.nBytesUsed + g)).toNat := by omega
      have eg : s.nBytesUsed + ((g.toNat : Nat) : Int) = s.nBytesUsed + g := by omega
      simp only [hfirst]
      rw [show pending s = slice s.buffer s.nBytesUsed (s.nBytesWritten - s.nBytesUsed).toNat
        from rfl, esplit, slice_add, eg]
      congr 1
      split_ifs with hreset
      · have : (s.nBytesWritten - (s.nBytesUsed + g)).toNat = 0 := by omega
        rw [this]
        rfl
      · rfl

theorem delivered_append_pending (cs : List Call) :
    ∀ s : PhyState, CursorInv s → s.threshold ≤ 0 → noTruncation s cs = true →
      deliveredBytes s cs ++ pending (runCalls s cs) = pending s ++ sentBytes s cs := by
  induction cs with
  | nil =>
    intro s _ _ _
    simp [deliveredBytes, runCalls, sentBytes]
  | cons c cs ih =>
    intro s hinv hthr hnt
    cases c with
    | send payload =>
      simp only [noTruncation, Bool.and_eq_true, decide_eq_true_eq] at hnt
      have hinv' := PHY_send_cursorInv s (ptrOf payload) (payload.length : Int) hinv
        (by omega) (by have := hnt.1; unfold BUFSIZE at this; unfold INT_MAX; omega)
      have hthr' : (PHY_send s (ptrOf payload) (payload.length : Int)).1.threshold ≤ 0 := by
        rw [(PHY_send_frame s (ptrOf payload) (payload.length : Int)).2.2.1]; exact hthr
      simp only [deliveredBytes, runCalls, sentBytes]
      rw [ih _ hinv' hthr' hnt.2, pending_PHY_send s payload hinv hnt.1]
      simp only [List.append_assoc]
    | get dataRX m =>
      simp only [noTruncation] at hnt
      have hinv' := PHY_get_cursorInv s dataRX m hinv
      have hthr' : (PHY_get s dataRX m).1.threshold ≤ 0 := by
        rw [(PHY_get_frame s dataRX m).2.2.1]; exact hthr
      simp only [deliveredBytes, runCalls, sentBytes]
      rw [List.append_assoc, ih _ hinv' hthr' hnt, ← List.append_assoc,
        pending_PHY_get s dataRX m hinv hthr]

theorem preambleBytes_length (s : PhyState) :
    (s.nBytesWritten ≠ 0 → preambleBytes s = []) ∧
    (s.nBytesWritten = 0 →
      2 ≤ (preambleBytes s).length ∧ (preambleBytes s).length ≤ 11) := by
  constructor
  · intro h
    simp only [preambleBytes, h, if_false]
  · intro h
    have hw : (sendPreamble s).nBytesWritten = 2 + ((s.rnd s.rpos % 10 : Nat) : Int) := by
      rw [sendPreamble_of_eq s h]
    simp only [preambleBytes, h, if_true, slice, List.length_map, List.length_range, hw]
    omega

/-! ## The claims -/

/-- C1 at a failing input: the example state satisfies the cursor invariant,
and a send of 2147483647 bytes from it, whose room check `5 + 2147483647`
wraps to a negative `int`, copies all the bytes, past the end of `buffer`
(a store in the map here, where a run of the program may stop), and leaves
the write cursor at `-2147483644`, outside `0 .. 2000` and below the read
cursor. -/
theorem send_overflow_breaks_cursor_invariant :
    CursorInv exState ∧ (0 : Int) ≤ 2147483647 ∧
    (PHY_send exState exBig 2147483647).1.nBytesWritten = -2147483644 ∧
    (PHY_send exState exBig 2147483647).1.nBytesUsed = 2 ∧
    ¬ CursorInv (PHY_send exState exBig 2147483647).1 := by
  have hw : (PHY_send exState exBig 2147483647).1.nBytesWritten = -2147483644 := by
    rw [PHY_send_nBytesWritten]
    decide
  have hu : (PHY_send exState exBig 2147483647).1.nBytesUsed = 2 :=
    (PHY_send_frame exState exBig 2147483647).1
  refine ⟨by decide, by decide, hw, hu, ?_⟩
  intro h
  have := h.2.1
  omega

/-- C2 at a failing input: from the example state, with the write cursor 5, a
request of 2147483647 bytes exceeds the room of 1995 bytes, and `PHY_send`
returns 2147483647, not 1995: the sum of its room check wraps. -/
theorem send_overflow_accepts_all :
    CursorInv exState ∧ (0 : Int) ≤ 2147483647 ∧
    (sendPreamble exState).nBytesWritten + 2147483647 > 2000 ∧
    2000 - (sendPreamble exState).nBytesWritten = 1995 ∧
    (PHY_send exState exBig 2147483647).2 = 2147483647 := by
  decide

/-- Copy and frame of a send whose room check does not overflow: with `w` the
write cursor after the preamble block and `r` the count returned, afterwards
`buffer[w + i] = payload[i]` for `0 <= i < r`, the write cursor is `w + r`,
the read cursor is unchanged, every slot at an index `>= w + r` is unchanged
and, when the buffer was not drained, every slot below `w` is unchanged. -/
theorem PHY_send_copy_and_frame_of_fit (s : PhyState) (payload : List byte_t) (n : Int)
    (hinv : CursorInv s) (hn : 0 ≤ n) (hlen : n ≤ (payload.length : Int))
    (hfit : (sendPreamble s).nBytesWritten + n ≤ INT_MAX) :
    (∀ i : Nat, (i : Int) < (PHY_send s (ptrOf payload) n).2 →
      payload[i]? = some ((PHY_send s (ptrOf payload) n).1.buffer
        ((sendPreamble s).nBytesWritten + (i : Int)))) ∧
    (PHY_send s (ptrOf payload) n).1.nBytesWritten =
      (sendPreamble s).nBytesWritten + (PHY_send s (ptrOf payload) n).2 ∧
    (PHY_send s (ptrOf payload) n).1.nBytesUsed = s.nBytesUsed ∧
    (∀ j : Int, (sendPreamble s).nBytesWritten + (PHY_send s (ptrOf payload) n).2 ≤ j →
      (PHY_send s (ptrOf payload) n).1.buffer j = s.buffer j) ∧
    (¬ Drained s → ∀ j : Int, j < (sendPreamble s).nBytesWritten →
      (PHY_send s (ptrOf payload) n).1.buffer j = s.buffer j) := by
  obtain ⟨⟨h1, h2, h3⟩, h4⟩ := sendPreamble_cursor s hinv
  obtain ⟨c1, c2, c3, _, _⟩ := sendCount_bounds (sendPreamble s) n (by omega) h3 hn hfit
  have hcur := PHY_send_nBytesWritten_of_fit s (ptrOf payload) n hinv hn hfit
  rw [PHY_send_snd]
  refine ⟨?_, hcur, (PHY_send_frame s (ptrOf payload) n).1, ?_, ?_⟩
  all_goals rw [PHY_send_fst]
  · intro i hi
    have hc : (sendPreamble s).nBytesWritten ≤ (sendPreamble s).nBytesWritten + (i : Int) ∧
        (sendPreamble s).nBytesWritten + (i : Int) <
          (sendPreamble s).nBytesWritten + ((sendCount (sendPreamble s) n).toNat : Int) := by
      omega
    have hi' : i < payload.length := by omega
    have e : ((sendPreamble s).nBytesWritten + (i : Int) - (sendPreamble s).nBytesWritten).toNat
        = i := by omega
    simp only [hc, and_self, if_true, e, ptrOf]
    rw [List.getElem?_eq_getElem hi', List.getD_eq_getElem payload 0 hi']
  · intro j hj
    have hc : ¬ ((sendPreamble s).nBytesWritten ≤ j ∧
        j < (sendPreamble s).nBytesWritten + ((sendCount (sendPreamble s) n).toNat : Int)) := by
      omega
    simp only [hc, if_false]
    by_cases h : s.nBytesWritten = 0
    · have hw : (sendPreamble s).nBytesWritten = 2 + ((s.rnd s.rpos % 10 : Nat) : Int) := by
        rw [sendPreamble_of_eq s h]
      have hb : (sendPreamble s).buffer j =
          if 0 ≤ j ∧ j < 2 + ((s.rnd s.rpos % 10 : Nat) : Int)
          then toByte (s.rnd (s.rpos + 1 + j.toNat) % 200) else s.buffer j := by
        rw [sendPreamble_of_eq s h]
      have : ¬ (0 ≤ j ∧ j < 2 + ((s.rnd s.rpos % 10 : Nat) : Int)) := by omega
      rw [hb, if_neg this]
    · rw [sendPreamble_of_ne s h]
  · intro hd j hj
    have h : s.nBytesWritten ≠ 0 := by
      intro h0
      apply hd
      obtain ⟨a, b, _⟩ := hinv
      exact ⟨h0, by omega⟩
    have hc : ¬ ((sendPreamble s).nBytesWritten ≤ j ∧
        j < (sendPreamble s).nBytesWritten + ((sendCount (sendPreamble s) n).toNat : Int)) := by
      omega
    simp only [hc, if_false]
    rw [sendPreamble_of_ne s h]

/-- C3 at a failing input: a send of 2147483647 bytes from the example state,
from an array that holds them. With `w = 5` the write cursor before the copy
and `r = 2147483647` the count returned, the write cursor afterwards is
`-2147483644`, not `w + r`, and the copy has run past the last slot of
`buffer`: the byte `0x41` is at index 2000. -/
theorem send_overflow_copies_past_buffer :
    CursorInv exState ∧ (0 : Int) ≤ 2147483647 ∧
    (sendPreamble exState).nBytesWritten = 5 ∧
    (PHY_send exState exBig 2147483647).2 = 2147483647 ∧
    (PHY_send exState exBig 2147483647).1.nBytesWritten ≠
      (sendPreamble exState).nBytesWritten + (PHY_send exState exBig 2147483647).2 ∧
    (PHY_send exState exBig 2147483647).1.buffer 2000 = 0x41 ∧
    exState.buffer 2000 = 0 := by
  have hw : (PHY_send exState exBig 2147483647).1.nBytesWritten = -2147483644 := by
    rw [PHY_send_nBytesWritten]
    decide
  have hb := PHY_send_buffer_at exState exBig 2147483647 1995 (by decide)
  have e : (sendPreamble exState).nBytesWritten + ((1995 : Nat) : Int) = 2000 := by decide
  rw [e] at hb
  refine ⟨by decide, by decide, by decide, by decide, ?_, hb, by decide⟩
  rw [hw]
  decide

/-- C4. Preamble injection: from a state satisfying the cursor invariant, for
every random stream and every length `n >= 0`, `PHY_send` inserts a preamble
if and only if the buffer is drained. When it does, the preamble occupies the
slots `0 .. k-1` with `2 <= k <= 11` and the payload starts at index `k`;
when the buffer is not drained nothing is inserted and no random value is
consumed. -/
theorem preamble_injection (s : PhyState) (dataTX : Nat → byte_t) (n : Int)
    (hinv : CursorInv s) (hn : 0 ≤ n) :
    (sendPreamble s ≠ s ↔ Drained s) ∧
    (Drained s →
      (sendPreamble s).nBytesWritten = ((2 + s.rnd s.rpos % 10 : Nat) : Int) ∧
      2 ≤ 2 + s.rnd s.rpos % 10 ∧ 2 + s.rnd s.rpos % 10 ≤ 11 ∧
      (∀ i : Nat, i < 2 + s.rnd s.rpos % 10 →
        (PHY_send s dataTX n).1.buffer (i : Int) = toByte (s.rnd (s.rpos + 1 + i) % 200)) ∧
      (∀ i : Nat, (i : Int) < (PHY_send s dataTX n).2 →
        (PHY_send s dataTX n).1.buffer (((2 + s.rnd s.rpos % 10 : Nat) : Int) + (i : Int))
          = dataTX i) ∧
      (PHY_send s dataTX n).1.rpos = s.rpos + 1 + (2 + s.rnd s.rpos % 10)) ∧
    (¬ Drained s →
      sendPreamble s = s ∧
      (PHY_send s dataTX n).1.rpos = s.rpos ∧
      ∀ j : Int, j < s.nBytesWritten → (PHY_send s dataTX n).1.buffer j = s.buffer j) := by
  have hdr : Drained s ↔ s.nBytesWritten = 0 := by
    obtain ⟨a, b, _⟩ := hinv
    constructor
    · exact fun h => h.1
    · exact fun h => ⟨h, by omega⟩
  obtain ⟨⟨h1, h2, h3⟩, h4⟩ := sendPreamble_cursor s hinv
  refine ⟨?_, ?_, ?_⟩
  · rw [hdr]
    constructor
    · intro hne
      by_contra h0
      exact hne (sendPreamble_of_ne s h0)
    · intro h0 heq
      have := congrArg PhyState.rpos heq
      rw [sendPreamble_of_eq s h0] at this
      simp only at this
      omega
  · intro hd
    have h0 := hdr.mp hd
    have hw : (sendPreamble s).nBytesWritten = ((2 + s.rnd s.rpos % 10 : Nat) : Int) := by
      rw [sendPreamble_of_eq s h0]; push_cast; rfl
    have hb : ∀ j : Int, (sendPreamble s).buffer j =
        if 0 ≤ j ∧ j < 2 + ((s.rnd s.rpos % 10 : Nat) : Int)
        then toByte (s.rnd (s.rpos + 1 + j.toNat) % 200) else s.buffer j := by
      intro j; rw [sendPreamble_of_eq s h0]
    have hp : (sendPreamble s).rpos = s.rpos + 1 + (2 + s.rnd s.rpos % 10) := by
      rw [sendPreamble_of_eq s h0]
    refine ⟨hw, by omega, by omega, ?_, ?_, ?_⟩
    · intro i hi
      rw [PHY_send_fst]
      have hc : ¬ ((sendPreamble s).nBytesWritten ≤ (i : Int) ∧ (i : Int) <
          (sendPreamble s).nBytesWritten + ((sendCount (sendPreamble s) n).toNat : Int)) := by
        omega
      have hc2 : (0 : Int) ≤ (i : Int) ∧ (i : Int) < 2 + ((s.rnd s.rpos % 10 : Nat) : Int) := by
        omega
      simp only [hc, if_false]
      rw [hb, if_pos hc2, Int.toNat_ofNat]
    · intro i hi
      rw [PHY_send_snd] at hi
      rw [PHY_send_fst, ← hw]
      have hc : (sendPreamble s).nBytesWritten ≤ (sendPreamble s).nBytesWritten + (i : Int) ∧
          (sendPreamble s).nBytesWritten + (i : Int) <
            (sendPreamble s).nBytesWritten + ((sendCount (sendPreamble s) n).toNat : Int) := by
        omega
      have e : ((sendPreamble s).nBytesWritten + (i : Int)
          - (sendPreamble s).nBytesWritten).toNat = i := by omega
      simp only [hc, and_self, if_true, e]
    · rw [PHY_send_fst]
      exact hp
  · intro hd
    have h0 : s.nBytesWritten ≠ 0 := fun h => hd (hdr.mpr h)
    have e := sendPreamble_of_ne s h0
    refine ⟨e, ?_, ?_⟩
    · rw [PHY_send_fst, e]
    · intro j hj
      rw [PHY_send_fst]
      have hc : ¬ ((sendPreamble s).nBytesWritten ≤ j ∧ j <
          (sendPreamble s).nBytesWritten + ((sendCount (sendPreamble s) n).toNat : Int)) := by
        rw [e]; omega
      simp only [hc, if_false]
      rw [e]

/-- Instance of C4: a send of three bytes on the drained example state puts a
preamble of five bytes before the payload. -/
theorem preamble_injection_witness :
    CursorInv exDrained ∧ (0 : Int) ≤ 3 ∧
    (sendPreamble exDrained ≠ exDrained ↔ Drained exDrained) ∧
    (sendPreamble exDrained).nBytesWritten = 5 :=
  ⟨by decide, by decide,
   (preamble_injection exDrained (ptrOf exPayload) 3 (by decide) (by decide)).1,
   ((preamble_injection exDrained (ptrOf exPayload) 3 (by decide) (by decide)).2.1
     (by decide)).1⟩

/-- C5. Get in the data-available case: from a state satisfying the cursor
invariant with `available = nBytesWritten - nBytesUsed > 0` and for a maximum
count `> 0`, `PHY_get` returns `min(available, maxCount)`, writes exactly that
many output bytes and leaves the buffer unchanged; if the old read cursor plus
the count equals the write cursor both cursors become 0, otherwise the read
cursor advances by the count and the write cursor is unchanged. -/
theorem get_data_available (s : PhyState) (dataRX : Nat → byte_t) (maxCount : Int)
    (hinv : CursorInv s) (havail : 0 < s.nBytesWritten - s.nBytesUsed) (hm : 0 < maxCount) :
    (PHY_get s dataRX maxCount).2.2 = min (s.nBytesWritten - s.nBytesUsed) maxCount ∧
    (∀ i : Nat, (i : Int) < (PHY_get s dataRX maxCount).2.2 →
      (PHY_get s dataRX maxCount).2.1 i = deliveredByte s i) ∧
    (∀ j : Nat, (PHY_get s dataRX maxCount).2.2 ≤ (j : Int) →
      (PHY_get s dataRX maxCount).2.1 j = dataRX j) ∧
    (PHY_get s dataRX maxCount).1.buffer = s.buffer ∧
    (s.nBytesUsed + (PHY_get s dataRX maxCount).2.2 = s.nBytesWritten →
      (PHY_get s dataRX maxCount).1.nBytesWritten = 0 ∧
      (PHY_get s dataRX maxCount).1.nBytesUsed = 0) ∧
    (s.nBytesUsed + (PHY_get s dataRX maxCount).2.2 ≠ s.nBytesWritten →
      (PHY_get s dataRX maxCount).1.nBytesUsed =
        s.nBytesUsed + (PHY_get s dataRX maxCount).2.2 ∧
      (PHY_get s dataRX maxCount).1.nBytesWritten = s.nBytesWritten) := by
  rw [PHY_get_of_avail s dataRX maxCount hm (by omega)]
  have hg : 0 < min (s.nBytesWritten - s.nBytesUsed) maxCount := lt_min havail hm
  refine ⟨rfl, ?_, ?_, ?_, ?_, ?_⟩
  · intro i hi
    have : i < (min (s.nBytesWritten - s.nBytesUsed) maxCount).toNat := by
      simp only at hi; omega
    simp only [this, if_true]
  · intro j hj
    have : ¬ j < (min (s.nBytesWritten - s.nBytesUsed) maxCount).toNat := by
      simp only at hj; omega
    simp only [this, if_false]
  · split_ifs <;> rfl
  · intro h
    simp only at h
    simp only [h, if_true, and_self]
  · intro h
    simp only at h
    simp only [h, if_false, and_self]

/-- Instance of C5: with three bytes available in the example state, a get of
at most two delivers two bytes and moves the read cursor from 2 to 4. -/
theorem get_data_available_witness :
    CursorInv exState ∧ 0 < exState.nBytesWritten - exState.nBytesUsed ∧ (0 : Int) < 2 ∧
    (PHY_get exState (fun _ => 0) 2).2.2 = min (exState.nBytesWritten - exState.nBytesUsed) 2 ∧
    (PHY_get exState (fun _ => 0) 2).1.nBytesUsed = 4 :=
  ⟨by decide, by decide, by decide,
   (get_data_available exState (fun _ => 0) 2 (by decide) (by decide) (by decide)).1,
   ((get_data_available exState (fun _ => 0) 2 (by decide) (by decide) (by decide)).2.2.2.2.2
     (by decide)).1⟩

/-- C6, as stated, fails: in a session opened with the non-negative timeouts
2147483647 and 1, whose sum is not zero, the `int` sum stored as time limit
wraps, and a get on the freshly opened channel requests a wait of
`-2147483648` ms, not of `2147483647 + 1` ms. -/
theorem starvation_wait_counterexample :
    (0 : Int) ≤ 2147483647 ∧ (0 : Int) ≤ 1 ∧ (2147483647 + 1 : Int) ≠ 0 ∧
    (PHY_open 32767 exSeed exState 1 9600 8 0 2147483647 1 0).1.nBytesWritten =
      (PHY_open 32767 exSeed exState 1 9600 8 0 2147483647 1 0).1.nBytesUsed ∧
    (PHY_get (PHY_open 32767 exSeed exState 1 9600 8 0 2147483647 1 0).1 (fun _ => 0) 4).1.waits
      = (PHY_open 32767 exSeed exState 1 9600 8 0 2147483647 1 0).1.waits ++ [-2147483648] ∧
    (PHY_get (PHY_open 32767 exSeed exState 1 9600 8 0 2147483647 1 0).1 (fun _ => 0) 4).1.waits
      ≠ (PHY_open 32767 exSeed exState 1 9600 8 0 2147483647 1 0).1.waits ++ [2147483647 + 1] := by
  decide

/-- C6, amended. Get in the starvation case: in every state with equal cursors
and for a maximum count `> 0`, `PHY_get` returns 1, writes one output byte in
`[0, 255]` at index 0, requests exactly one wait and leaves both cursors and
the buffer unchanged, so that a drained channel stays drained and the next
send still injects a preamble. In a session opened with non-negative timeout
parameters whose sum is at most `INT_MAX`, the wait is
`rxTimeConst + rxTimeIntv` ms when that sum is not zero and 10000 ms when
both are zero. -/
theorem get_starvation :
    (∀ (s : PhyState) (dataRX : Nat → byte_t) (maxCount : Int),
      s.nBytesWritten = s.nBytesUsed → 0 < maxCount →
        (PHY_get s dataRX maxCount).2.2 = 1 ∧
        (PHY_get s dataRX maxCount).2.1 0 = toByte (s.rnd s.rpos % 256) ∧
        ((PHY_get s dataRX maxCount).2.1 0).val ≤ 255 ∧
        (∀ j : Nat, j ≠ 0 → (PHY_get s dataRX maxCount).2.1 j = dataRX j) ∧
        (PHY_get s dataRX maxCount).1.waits =
          s.waits ++ [if s.rxTimeLimit = 0 then 10000 else s.rxTimeLimit] ∧
        (PHY_get s dataRX maxCount).1.nBytesWritten = s.nBytesWritten ∧
        (PHY_get s dataRX maxCount).1.nBytesUsed = s.nBytesUsed ∧
        (PHY_get s dataRX maxCount).1.buffer = s.buffer ∧
        (Drained s → Drained (PHY_get s dataRX maxCount).1 ∧
          sendPreamble (PHY_get s dataRX maxCount).1 ≠ (PHY_get s dataRX maxCount).1)) ∧
    (∀ (RAND_MAX : Nat) (seeded : Nat → Nat) (prior : PhyState)
        (portNum bitRate nDataBits parity rxTimeConst rxTimeIntv : Int) (probErr : double)
        (s : PhyState) (dataRX : Nat → byte_t) (maxCount : Int),
      0 ≤ rxTimeConst → 0 ≤ rxTimeIntv → rxTimeConst + rxTimeIntv ≤ INT_MAX →
      Reachable (PHY_open RAND_MAX seeded prior portNum bitRate nDataBits parity
        rxTimeConst rxTimeIntv probErr).1 s →
      s.nBytesWritten = s.nBytesUsed → 0 < maxCount →
        (rxTimeConst + rxTimeIntv ≠ 0 →
          (PHY_get s dataRX maxCount).1.waits = s.waits ++ [rxTimeConst + rxTimeIntv]) ∧
        (rxTimeConst = 0 ∧ rxTimeIntv = 0 →
          (PHY_get s dataRX maxCount).1.waits = s.waits ++ [10000])) := by
  constructor
  · intro s dataRX maxCount heq hm
    rw [PHY_get_of_starved s dataRX maxCount hm heq]
    refine ⟨rfl, ?_, ?_, ?_, rfl, rfl, rfl, rfl, ?_⟩
    · simp [setAt]
    · have := ((setAt dataRX 0 (toByte (s.rnd s.rpos % 256))) 0).isLt
      omega
    · intro j hj
      simp [setAt, hj]
    · intro hd
      exact ⟨hd, sendPreamble_ne_self _ hd.1⟩
  · intro RAND_MAX seeded prior portNum bitRate nDataBits parity rxTimeConst rxTimeIntv probErr
      s dataRX maxCount hc hi hfit hr heq hm
    have hlim : s.rxTimeLimit = rxTimeConst + rxTimeIntv := by
      rw [hr.frame.1, (PHY_open_fields RAND_MAX seeded prior portNum bitRate nDataBits parity
        rxTimeConst rxTimeIntv probErr).2.2.1]
      exact wrapInt_of_fit _ (by unfold INT_MIN; omega) hfit
    rw [PHY_get_of_starved s dataRX maxCount hm heq]
    simp only [hlim]
    constructor
    · intro hne
      rw [if_neg hne]
    · intro h0
      have : rxTimeConst + rxTimeIntv = 0 := by omega
      rw [if_pos this]

/-- Instance of C6: in a session opened with timeouts 30 ms and 10 ms, a get
on the freshly opened channel returns one byte and waits 40 ms. -/
theorem get_starvation_witness :
    (PHY_get exDrained (fun _ => 0) 4).2.2 = 1 ∧
    (PHY_get (PHY_open 32767 (fun i => 7 * i + 3) exState 1 9600 8 0 30 10 0).1
      (fun _ => 0) 4).1.waits =
      (PHY_open 32767 (fun i => 7 * i + 3) exState 1 9600 8 0 30 10 0).1.waits ++ [30 + 10] :=
  ⟨(get_starvation.1 exDrained (fun _ => 0) 4 (by decide) (by decide)).1,
   (get_starvation.2 32767 (fun i => 7 * i + 3) exState 1 9600 8 0 30 10 0
     (PHY_open 32767 (fun i => 7 * i + 3) exState 1 9600 8 0 30 10 0).1 (fun _ => 0) 4
     (by decide) (by decide) (by decide) Reachable.init (by decide) (by decide)).1 (by decide)⟩

/-- C7. For every state and every maximum count `<= 0`, `PHY_get` returns 0
and changes nothing: the state (cursors, buffer, position in the random
stream, requested waits) and the output array are the ones given. -/
theorem get_nonpositive (s : PhyState) (dataRX : Nat → byte_t) (maxCount : Int)
    (hm : maxCount ≤ 0) :
    PHY_get s dataRX maxCount = (s, dataRX, 0) :=
  PHY_get_of_nonpos s dataRX maxCount hm

/-- Instance of C7: a get of at most `-1` bytes on the example state. -/
theorem get_nonpositive_witness :
    (-1 : Int) ≤ 0 ∧ PHY_get exState (fun _ => 0) (-1) = (exState, fun _ => 0, 0) :=
  ⟨by decide, get_nonpositive exState (fun _ => 0) (-1) (by decide)⟩

/-- C8. Error-free round trip: for every random stream, every payload of
length `n <= 1989` and every maximum count `m >= n + 11`, after
`PHY_open` with probability of error 0, `PHY_send` of the payload returns `n`
and `PHY_get` returns `k + n` bytes, where `k = 2 + rand() % 10` is the
preamble length, `2 <= k <= 11`; the last `n` bytes delivered are the payload
and both cursors are 0 afterwards. -/
theorem error_free_round_trip (RAND_MAX : Nat) (seeded : Nat → Nat) (prior : PhyState)
    (portNum bitRate nDataBits parity rxTimeConst rxTimeIntv : Int)
    (payload : List byte_t) (dataRX : Nat → byte_t) (m : Int)
    (hn : payload.length ≤ 1989) (hm : (payload.length : Int) + 11 ≤ m) :
    let o := (PHY_open RAND_MAX seeded prior portNum bitRate nDataBits parity
      rxTimeConst rxTimeIntv 0).1
    let sent := PHY_send o (ptrOf payload) (payload.length : Int)
    let got := PHY_get sent.1 dataRX m
    let k := 2 + seeded 0 % 10
    2 ≤ k ∧ k ≤ 11 ∧
    sent.2 = (payload.length : Int) ∧
    got.2.2 = ((k + payload.length : Nat) : Int) ∧
    (∀ (i : Nat) (h : i < payload.length), got.2.1 (k + i) = payload[i]) ∧
    got.1.nBytesWritten = 0 ∧ got.1.nBytesUsed = 0 := by
  intro o sent got k
  obtain ⟨o1, o2, _, o4, o5⟩ := PHY_open_fields RAND_MAX seeded prior portNum bitRate
    nDataBits parity rxTimeConst rxTimeIntv 0
  have o3 := PHY_open_threshold_zero RAND_MAX seeded prior portNum bitRate
    nDataBits parity rxTimeConst rxTimeIntv
  have hw : (sendPreamble o).nBytesWritten = (k : Int) := by
    rw [sendPreamble_of_eq o o1]
    simp only [o, k, o4, o5]
    push_cast
    rfl
  have hk : k ≤ 11 := by simp only [k]; omega
  have hcount : sendCount (sendPreamble o) (payload.length : Int) = (payload.length : Int) :=
    sendCount_of_room _ _ (by rw [hw]; omega) (by omega) (by rw [hw]; unfold BUFSIZE; omega)
  have s1 : sent.1.nBytesWritten = (k : Int) + (payload.length : Int) := by
    simp only [sent]
    rw [PHY_send_nBytesWritten, hw, hcount]
    exact wrapInt_of_fit _ (by unfold INT_MIN; omega) (by unfold INT_MAX; omega)
  obtain ⟨s2, _, s3, _, _⟩ := PHY_send_frame o (ptrOf payload) (payload.length : Int)
  have s2' : sent.1.nBytesUsed = 0 := s2.trans o2
  have s3' : sent.1.threshold = 0 := s3.trans o3
  have hmin : min (sent.1.nBytesWritten - sent.1.nBytesUsed) m
      = (k : Int) + (payload.length : Int) := by
    rw [s1, s2']
    simp only [sub_zero]
    exact min_eq_left (by omega)
  have hget := PHY_get_of_avail sent.1 dataRX m (by omega) (by rw [s1, s2']; omega)
  rw [hmin] at hget
  refine ⟨by simp only [k]; omega, hk, hcount, ?_, ?_, ?_, ?_⟩
  · simp only [got]
    rw [hget]
    push_cast
    rfl
  · intro i hi
    simp only [got]
    rw [hget]
    have hlt : k + i < ((k : Int) + (payload.length : Int)).toNat := by omega
    simp only [hlt, if_true]
    rw [deliveredByte_of_threshold_nonpos _ (le_of_eq s3'), s2', zero_add]
    have := PHY_send_buffer_at o (ptrOf payload) (payload.length : Int) i (by rw [hcount]; omega)
    rw [hw] at this
    simp only [sent]
    push_cast
    rw [this, ptrOf_getElem payload i hi]
  · simp only [got]
    rw [hget, if_pos (by rw [s1, s2']; omega)]
  · simp only [got]
    rw [hget, if_pos (by rw [s1, s2']; omega)]

/-- Instance of C8, the scenario of the spec: the payload `[0x41, 0x42, 0x43]`
and a get of at most 100 bytes. -/
theorem error_free_round_trip_witness :
    exPayload.length ≤ 1989 ∧ ((exPayload.length : Int) + 11 ≤ 100) ∧
    (PHY_send (PHY_open 32767 (fun i => 7 * i + 3) exState 1 9600 8 0 30 10 0).1
      (ptrOf exPayload) 3).2 = 3 ∧
    (PHY_get (PHY_send (PHY_open 32767 (fun i => 7 * i + 3) exState 1 9600 8 0 30 10 0).1
      (ptrOf exPayload) 3).1 (fun _ => 0) 100).2.2 = 8 :=
  ⟨by decide, by decide,
   (error_free_round_trip 32767 (fun i => 7 * i + 3) exState 1 9600 8 0 30 10 exPayload
     (fun _ => 0) 100 (by decide) (by decide)).2.2.1,
   (error_free_round_trip 32767 (fun i => 7 * i + 3) exState 1 9600 8 0 30 10 exPayload
     (fun _ => 0) 100 (by decide) (by decide)).2.2.2.1⟩

/-- C9. No corruption at probability zero: in a session opened with
probability of error 0, in every reachable state, for every random stream and
every `PHY_get` in the data-available case, delivered byte `i` is the stored
byte `buffer[nBytesUsed + i]`. Hence, over any sequence of sends that are not
truncated and gets, the bytes delivered by the gets in the data-available
case, followed by the bytes still unread in the buffer, are the bytes passed
to the sends, in order, each frame's preamble before them; a preamble is
empty for a send that does not start a frame and has 2 to 11 bytes for one
that does. -/
theorem no_corruption_at_zero (RAND_MAX : Nat) (seeded : Nat → Nat) (prior : PhyState)
    (portNum bitRate nDataBits parity rxTimeConst rxTimeIntv : Int) :
    (∀ (s : PhyState) (dataRX : Nat → byte_t) (maxCount : Int),
      Reachable (PHY_open RAND_MAX seeded prior portNum bitRate nDataBits parity
        rxTimeConst rxTimeIntv 0).1 s →
      0 < s.nBytesWritten - s.nBytesUsed → 0 < maxCount →
      ∀ i : Nat, (i : Int) < (PHY_get s dataRX maxCount).2.2 →
        (PHY_get s dataRX maxCount).2.1 i = s.buffer (s.nBytesUsed + (i : Int))) ∧
    (∀ cs : List Call,
      noTruncation (PHY_open RAND_MAX seeded prior portNum bitRate nDataBits parity
        rxTimeConst rxTimeIntv 0).1 cs = true →
      deliveredBytes (PHY_open RAND_MAX seeded prior portNum bitRate nDataBits parity
          rxTimeConst rxTimeIntv 0).1 cs ++
        pending (runCalls (PHY_open RAND_MAX seeded prior portNum bitRate nDataBits parity
          rxTimeConst rxTimeIntv 0).1 cs) =
      sentBytes (PHY_open RAND_MAX seeded prior portNum bitRate nDataBits parity
        rxTimeConst rxTimeIntv 0).1 cs) ∧
    (∀ s : PhyState,
      (s.nBytesWritten ≠ 0 → preambleBytes s = []) ∧
      (s.nBytesWritten = 0 →
        2 ≤ (preambleBytes s).length ∧ (preambleBytes s).length ≤ 11)) := by
  obtain ⟨o1, o2, _, _, _⟩ := PHY_open_fields RAND_MAX seeded prior portNum bitRate
    nDataBits parity rxTimeConst rxTimeIntv 0
  have o3 := PHY_open_threshold_zero RAND_MAX seeded prior portNum bitRate
    nDataBits parity rxTimeConst rxTimeIntv
  refine ⟨?_, ?_, preambleBytes_length⟩
  · intro s dataRX maxCount hr havail hm i hi
    have hthr : s.threshold ≤ 0 := by rw [hr.frame.2.1, o3]
    rw [PHY_get_of_avail s dataRX maxCount hm (by omega)] at hi ⊢
    have : i < (min (s.nBytesWritten - s.nBytesUsed) maxCount).toNat := by
      simp only at hi; omega
    simp only [this, if_true]
    exact deliveredByte_of_threshold_nonpos s hthr i
  · intro cs hnt
    have h := delivered_append_pending cs _
      (PHY_open_cursorInv RAND_MAX seeded prior portNum bitRate nDataBits parity
        rxTimeConst rxTimeIntv 0) (le_of_eq o3) hnt
    have hp : pending (PHY_open RAND_MAX seeded prior portNum bitRate nDataBits parity
        rxTimeConst rxTimeIntv 0).1 = [] := by
      simp only [pending, o1, o2, sub_zero, Int.toNat_zero, slice_zero]
    rw [hp, List.nil_append] at h
    exact h

/-- Instance of C9: in the example session every byte delivered is a byte
sent: the five preamble bytes, then the payload twice. -/
theorem no_corruption_at_zero_witness :
    noTruncation (PHY_open 32767 (fun i => 7 * i + 3) exState 1 9600 8 0 30 10 0).1 exCalls
      = true ∧
    deliveredBytes (PHY_open 32767 (fun i => 7 * i + 3) exState 1 9600 8 0 30 10 0).1 exCalls ++
      pending (runCalls (PHY_open 32767 (fun i => 7 * i + 3) exState 1 9600 8 0 30 10 0).1
        exCalls) =
    sentBytes (PHY_open 32767 (fun i => 7 * i + 3) exState 1 9600 8 0 30 10 0).1 exCalls ∧
    deliveredBytes (PHY_open 32767 (fun i => 7 * i + 3) exState 1 9600 8 0 30 10 0).1 exCalls
      = [10, 17, 24, 31, 38, 0x41, 0x42, 0x43, 0x41, 0x42, 0x43] :=
  ⟨by decide,
   (no_corruption_at_zero 32767 (fun i => 7 * i + 3) exState 1 9600 8 0 30 10).2.1 exCalls
     (by decide),
   by decide⟩

/-- On a platform with `RAND_MAX = 32767` the threshold for the probability
1.0 is `1 + 8 * 32767`. -/
theorem PHY_open_threshold_one_small (seeded : Nat → Nat) (s : PhyState)
    (portNum bitRate nDataBits parity rxTimeConst rxTimeIntv : Int) :
    (PHY_open 32767 seeded s portNum bitRate nDataBits parity
      rxTimeConst rxTimeIntv 1).1.threshold = 262137 := by
  have h1 : double.lt 1 0 = false := by decide
  have h2 : double.lt 1 1 = false := by decide
  have h3 : double.ne 1 0 = true := by decide
  have h4 : wrapInt (1 + castInt (double.mul (double.mul 8 (double.ofInt ((32767 : Nat) : Int)))
      1)) = 262137 := by decide
  simp only [PHY_open, srand, h1, h2, h3, h4, if_true, Bool.false_eq_true, if_false]

/-- With `RAND_MAX = 32767` the threshold of the probability 1.0 is above every
value of the random stream: in a session opened with that probability every
byte a get delivers in the data-available case differs from the stored byte
in exactly one bit. -/
theorem certain_corruption_of_small_RAND_MAX (seeded : Nat → Nat) (prior : PhyState)
    (portNum bitRate nDataBits parity rxTimeConst rxTimeIntv : Int)
    (s : PhyState) (dataRX : Nat → byte_t) (maxCount : Int)
    (hrand : ∀ j, seeded j ≤ 32767)
    (hr : Reachable (PHY_open 32767 seeded prior portNum bitRate nDataBits parity
      rxTimeConst rxTimeIntv 1).1 s)
    (havail : 0 < s.nBytesWritten - s.nBytesUsed) (hm : 0 < maxCount) :
    ∀ i : Nat, (i : Int) < (PHY_get s dataRX maxCount).2.2 →
      bitDistance ((PHY_get s dataRX maxCount).2.1 i) (s.buffer (s.nBytesUsed + (i : Int))) = 1 := by
  obtain ⟨_, hthr, hrnd⟩ := hr.frame
  rw [PHY_open_threshold_one_small] at hthr
  rw [(PHY_open_fields 32767 seeded prior portNum bitRate nDataBits parity
    rxTimeConst rxTimeIntv 1).2.2.2.1] at hrnd
  have hlt : ∀ j, (s.rnd j : Int) < s.threshold := by
    intro j
    have := hrand j
    rw [hthr, hrnd]
    omega
  intro i hi
  rw [PHY_get_of_avail s dataRX maxCount hm (by omega)] at hi ⊢
  have : i < (min (s.nBytesWritten - s.nBytesUsed) maxCount).toNat := by
    simp only at hi; omega
  simp only [this, if_true]
  rw [deliveredByte_of_lt s hlt i]
  exact bitDistance_flipBit _ _

/-- C10 at a failing input: on a platform with `RAND_MAX = 2147483647`, in a
session opened with the probability of error 1.0 the product
`8.0 * RAND_MAX * 1.0 = 17179869176.0` is beyond every `int` and the
threshold is `-2147483647`; after a send of the example payload, with a
random stream whose values are in `[0, RAND_MAX]`, the first byte a get
delivers is the stored byte: it differs from it in no bit. -/
theorem certain_corruption_fails_at_large_RAND_MAX :
    (∀ j, exSeed j ≤ 2147483647) ∧
    exOpenedMax.threshold = -2147483647 ∧
    Reachable exOpenedMax exSentMax ∧
    0 < exSentMax.nBytesWritten - exSentMax.nBytesUsed ∧
    (0 : Int) < (PHY_get exSentMax (fun _ => 0) 100).2.2 ∧
    (PHY_get exSentMax (fun _ => 0) 100).2.1 0 =
      exSentMax.buffer (exSentMax.nBytesUsed + ((0 : Nat) : Int)) ∧
    bitDistance ((PHY_get exSentMax (fun _ => 0) 100).2.1 0)
      (exSentMax.buffer (exSentMax.nBytesUsed + ((0 : Nat) : Int))) = 0 := by
  refine ⟨?_, by decide, Reachable.send _ _ _ Reachable.init (by decide) (by decide),
    by decide, by decide, by decide, by decide⟩
  intro j
  have : exSeed j < 32768 := Nat.mod_lt _ (by decide)
  omega

/-! ## The error threshold as a function of the probability -/

/-- The product is rounded as a `double` rounds it: with `RAND_MAX = 32767` and
the probability `0x1.000200040008p-18`, just below `1/262136`, the exact
product is below 1, the rounded product is 1.0, and the threshold is 2. -/
theorem PHY_open_threshold_rounds :
    (262136 : Int) * 0x1000200040008 < 2 ^ 66 ∧
    (PHY_open 32767 exSeed exState 1 9600 8 0 30 10
      (double.fin false 0x1000200040008 (-66))).1.threshold = 2 := by
  decide

/-- C11 at a failing input: on a platform with `RAND_MAX = 2147483647`, the
probabilities `0.0625 < 0.125` of `[0, 1]` get the thresholds `1073741824` and
`-2147483648`: for 0.125 the sum `1 + 2147483647` leaves the range of `int`
and wraps, and the threshold of the larger probability is the smaller one. -/
theorem threshold_not_monotone_at_large_RAND_MAX :
    double.le 0 (double.fin false 1 (-4)) = true ∧
    double.lt (double.fin false 1 (-4)) (double.fin false 1 (-3)) = true ∧
    double.le (double.fin false 1 (-3)) 1 = true ∧
    (PHY_open 2147483647 exSeed exState 1 9600 8 0 30 10
      (double.fin false 1 (-4))).1.threshold = 1073741824 ∧
    (PHY_open 2147483647 exSeed exState 1 9600 8 0 30 10
      (double.fin false 1 (-3))).1.threshold = -2147483648 ∧
    (PHY_open 2147483647 exSeed exState 1 9600 8 0 30 10
      (double.fin false 1 (-3))).1.threshold <
    (PHY_open 2147483647 exSeed exState 1 9600 8 0 30 10
      (double.fin false 1 (-4))).1.threshold := by
  decide

theorem double.lt_zero_of_one_lt (p : double) (h : double.lt 1 p = true) :
    double.lt p 0 = false := by
  cases p with
  | nan => rfl
  | inf s =>
    cases s
    · rfl
    · simp [double.lt] at h
  | fin s m e =>
    cases s
    · simp only [double.lt, double.scaled, decide_eq_false_iff_not, not_lt, if_false,
        Bool.false_eq_true]
      have : (0 : Int) ≤ (m : Int) * 2 ^ (e - min e 0).toNat := by positivity
      simp [this]
    · simp only [double.lt, double.scaled, decide_eq_true_eq, if_true, Bool.false_eq_true,
        if_false] at h
      have h1 : (0 : Int) < (1 : Int) * (((1 : Nat) : Int) * 2 ^ ((0 : Int) - min 0 e).toNat) := by
        positivity
      have h2 : (0 : Int) ≤ (m : Int) * 2 ^ (e - min 0 e).toNat := by positivity
      have h3 : (-1 : Int) * ((m : Int) * 2 ^ (e - min 0 e).toNat) ≤ 0 := by linarith
      have := lt_of_lt_of_le (lt_trans h1 h) h3
      exact absurd this (lt_irrefl _)

theorem double.le_of_not_lt (a b : double) (ha : a ≠ double.nan) (hb : b ≠ double.nan)
    (h : double.lt a b = false) : double.le b a = true := by
  cases a with
  | nan => exact absurd rfl ha
  | inf s1 =>
    cases b with
    | nan => exact absurd rfl hb
    | inf s2 => cases s1 <;> cases s2 <;> simp_all [double.lt, double.le, double.eq]
    | fin s2 m2 e2 => cases s1 <;> simp_all [double.lt, double.le, double.eq]
  | fin s1 m1 e1 =>
    cases b with
    | nan => exact absurd rfl hb
    | inf s2 => cases s2 <;> simp_all [double.lt, double.le, double.eq]
    | fin s2 m2 e2 =>
      simp only [double.lt, decide_eq_false_iff_not, not_lt] at h
      simp only [double.le, double.lt, double.eq, Bool.or_eq_true, decide_eq_true_eq,
        min_comm e2 e1]
      exact lt_or_eq_of_le h

theorem clampProb_fixed (p : double) :
    double.lt (clampProb p) 0 = false ∧ double.lt 1 (clampProb p) = false := by
  unfold clampProb
  by_cases h1 : double.lt p 0 = true
  · simp only [h1, if_true]
    decide
  · have h1' : double.lt p 0 = false := by simpa using h1
    simp only [h1', Bool.false_eq_true, if_false]
    by_cases h2 : double.lt 1 p = true
    · simp only [h2, if_true]
      decide
    · have h2' : double.lt 1 p = false := by simpa using h2
      simp [h1', h2']

theorem PHY_open_clampProb (RAND_MAX : Nat) (seeded : Nat → Nat) (s : PhyState)
    (portNum bitRate nDataBits parity rxTimeConst rxTimeIntv : Int) (p : double) :
    PHY_open RAND_MAX seeded s portNum bitRate nDataBits parity rxTimeConst rxTimeIntv p =
    PHY_open RAND_MAX seeded s portNum bitRate nDataBits parity rxTimeConst rxTimeIntv
      (clampProb p) := by
  obtain ⟨c1, c2⟩ := clampProb_fixed p
  have e : (if double.lt 1 (if double.lt p 0 = true then (0 : double) else p) = true
      then (1 : double) else (if double.lt p 0 = true then (0 : double) else p)) = clampProb p :=
    rfl
  simp only [PHY_open, e, c1, c2, Bool.false_eq_true, if_false]

theorem clampProb_range (p : double) (hp : p ≠ double.nan) :
    double.le 0 (clampProb p) = true ∧ double.le (clampProb p) 1 = true := by
  unfold clampProb
  by_cases h1 : double.lt p 0 = true
  · simp only [h1, if_true]
    decide
  · have h1' : double.lt p 0 = false := by simpa using h1
    simp only [h1', Bool.false_eq_true, if_false]
    by_cases h2 : double.lt 1 p = true
    · simp only [h2, if_true]
      decide
    · have h2' : double.lt 1 p = false := by simpa using h2
      simp only [h2', Bool.false_eq_true, if_false]
      exact ⟨double.le_of_not_lt p 0 hp (by decide) h1',
        double.le_of_not_lt 1 p (by decide) hp h2'⟩

/-- C12, as stated, fails: with the timeouts 2147483647 and 1 the `int` sum
wraps, and `PHY_open` sets the receive time limit to `-2147483648`, not to
`2147483647 + 1`. And a probability that is not a number passes both checks
unchanged, is not in `[0, 1]`, and gives the threshold `-2147483647`. -/
theorem open_time_limit_counterexample :
    (PHY_open 32767 exSeed exState 1 9600 8 0 2147483647 1 0).1.rxTimeLimit = -2147483648 ∧
    (PHY_open 32767 exSeed exState 1 9600 8 0 2147483647 1 0).1.rxTimeLimit
      ≠ 2147483647 + 1 ∧
    clampProb double.nan = double.nan ∧
    double.le 0 (clampProb double.nan) = false ∧
    double.le (clampProb double.nan) 1 = false ∧
    (PHY_open 32767 exSeed exState 1 9600 8 0 30 10 double.nan).1.threshold = -2147483647 := by
  decide

/-- C12, amended. Open postcondition: for every prior state and all arguments,
`PHY_open` returns 0 and sets both cursors to 0; it sets the receive time
limit to `rxTimeConst + rxTimeIntv` when that sum is between `INT_MIN` and
`INT_MAX`; it sets the threshold to the one it derives from the probability
after its two checks, which put every probability that is a number into
`[0, 1]`: a probability below 0 gives the threshold of 0.0, which is 0, and
one above 1 gives the threshold of 1.0. The port number, bit rate, number of
data bits and parity have no effect. -/
theorem open_postcondition (RAND_MAX : Nat) (seeded : Nat → Nat) (prior : PhyState)
    (portNum bitRate nDataBits parity rxTimeConst rxTimeIntv : Int) (probErr : double) :
    (PHY_open RAND_MAX seeded prior portNum bitRate nDataBits parity
      rxTimeConst rxTimeIntv probErr).2 = 0 ∧
    (PHY_open RAND_MAX seeded prior portNum bitRate nDataBits parity
      rxTimeConst rxTimeIntv probErr).1.nBytesWritten = 0 ∧
    (PHY_open RAND_MAX seeded prior portNum bitRate nDataBits parity
      rxTimeConst rxTimeIntv probErr).1.nBytesUsed = 0 ∧
    (INT_MIN ≤ rxTimeConst + rxTimeIntv → rxTimeConst + rxTimeIntv ≤ INT_MAX →
      (PHY_open RAND_MAX seeded prior portNum bitRate nDataBits parity
        rxTimeConst rxTimeIntv probErr).1.rxTimeLimit = rxTimeConst + rxTimeIntv) ∧
    (PHY_open RAND_MAX seeded prior portNum bitRate nDataBits parity
      rxTimeConst rxTimeIntv probErr).1.threshold =
    (PHY_open RAND_MAX seeded prior portNum bitRate nDataBits parity
      rxTimeConst rxTimeIntv (clampProb probErr)).1.threshold ∧
    (probErr ≠ double.nan →
      double.le 0 (clampProb probErr) = true ∧ double.le (clampProb probErr) 1 = true) ∧
    (double.lt probErr 0 = true →
      (PHY_open RAND_MAX seeded prior portNum bitRate nDataBits parity
        rxTimeConst rxTimeIntv probErr).1.threshold = 0 ∧
      (PHY_open RAND_MAX seeded prior portNum bitRate nDataBits parity
        rxTimeConst rxTimeIntv probErr).1.threshold =
      (PHY_open RAND_MAX seeded prior portNum bitRate nDataBits parity
        rxTimeConst rxTimeIntv 0).1.threshold) ∧
    (double.lt 1 probErr = true →
      (PHY_open RAND_MAX seeded prior portNum bitRate nDataBits parity
        rxTimeConst rxTimeIntv probErr).1.threshold =
      (PHY_open RAND_MAX seeded prior portNum bitRate nDataBits parity
        rxTimeConst rxTimeIntv 1).1.threshold) ∧
    (∀ portNum' bitRate' nDataBits' parity' : Int,
      PHY_open RAND_MAX seeded prior portNum' bitRate' nDataBits' parity'
        rxTimeConst rxTimeIntv probErr =
      PHY_open RAND_MAX seeded prior portNum bitRate nDataBits parity
        rxTimeConst rxTimeIntv probErr) := by
  obtain ⟨o1, o2, o3, _, _⟩ := PHY_open_fields RAND_MAX seeded prior portNum bitRate
    nDataBits parity rxTimeConst rxTimeIntv probErr
  have hc := PHY_open_clampProb RAND_MAX seeded prior portNum bitRate nDataBits parity
    rxTimeConst rxTimeIntv probErr
  refine ⟨rfl, o1, o2, ?_, ?_, clampProb_range probErr, ?_, ?_, fun _ _ _ _ => rfl⟩
  · intro h1 h2
    rw [o3]
    exact wrapInt_of_fit _ h1 h2
  · rw [← hc]
  · intro h
    have e : clampProb probErr = 0 := by
      unfold clampProb
      simp only [h, if_true]
      decide
    rw [hc, e, PHY_open_threshold_zero]
    exact ⟨rfl, rfl⟩
  · intro h
    have h0 := double.lt_zero_of_one_lt probErr h
    have e : clampProb probErr = 1 := by
      unfold clampProb
      simp only [h0, Bool.false_eq_true, if_false, h, if_true]
    rw [hc, e]

/-- Instance of C12: with `RAND_MAX = 32767` and the timeouts 30 and 10, the
time limit is 40; opening with the probability `-0.5` gives the threshold 0
and opening with `1.5` gives the threshold of the probability 1. -/
theorem open_postcondition_witness :
    INT_MIN ≤ (30 : Int) + 10 ∧ (30 : Int) + 10 ≤ INT_MAX ∧
    double.lt (double.fin true 1 (-1)) 0 = true ∧
    double.lt 1 (double.fin false 3 (-1)) = true ∧
    (PHY_open 32767 exSeed exState 1 9600 8 0 30 10 0).1.rxTimeLimit = 30 + 10 ∧
    (PHY_open 32767 exSeed exState 1 9600 8 0 30 10 (double.fin true 1 (-1))).1.threshold = 0 ∧
    (PHY_open 32767 exSeed exState 1 9600 8 0 30 10 (double.fin false 3 (-1))).1.threshold =
      (PHY_open 32767 exSeed exState 1 9600 8 0 30 10 1).1.threshold :=
  ⟨by decide, by decide, by decide, by decide,
   (open_postcondition 32767 exSeed exState 1 9600 8 0 30 10 0).2.2.2.1 (by decide) (by decide),
   ((open_postcondition 32767 exSeed exState 1 9600 8 0 30 10
     (double.fin true 1 (-1))).2.2.2.2.2.2.1 (by decide)).1,
   (open_postcondition 32767 exSeed exState 1 9600 8 0 30 10
     (double.fin false 3 (-1))).2.2.2.2.2.2.2.1 (by decide)⟩

/-- C13, as stated, fails: in the example state of an open session, with
eight unread bytes in the buffer and the threshold 262137, `PHY_close` does
not leave the cursors and the threshold at 0. -/
theorem close_resets_counterexample :
    ¬ ((PHY_close exBusy).2 = 0 ∧
       (PHY_close exBusy).1.nBytesWritten = 0 ∧
       (PHY_close exBusy).1.nBytesUsed = 0 ∧
       (PHY_close exBusy).1.threshold = 0) := by
  decide

/-- C13, amended. `PHY_close` returns 0 and changes nothing: cursors, buffer
and threshold keep their values, so the session is drained after the call
exactly when it was before. The session is safe to reopen because the
following `PHY_open` sets both cursors to 0 and derives the threshold from
its own argument, whatever state the close left. -/
theorem close_keeps_state (s : PhyState) :
    PHY_close s = (s, 0) ∧
    (Drained (PHY_close s).1 ↔ Drained s) ∧
    (∀ (RAND_MAX : Nat) (seeded : Nat → Nat)
        (portNum bitRate nDataBits parity rxTimeConst rxTimeIntv : Int) (probErr : double)
        (s' : PhyState),
      Drained (PHY_open RAND_MAX seeded (PHY_close s).1 portNum bitRate nDataBits parity
        rxTimeConst rxTimeIntv probErr).1 ∧
      (PHY_open RAND_MAX seeded (PHY_close s).1 portNum bitRate nDataBits parity
        rxTimeConst rxTimeIntv probErr).1.threshold =
      (PHY_open RAND_MAX seeded s' portNum bitRate nDataBits parity
        rxTimeConst rxTimeIntv probErr).1.threshold) := by
  refine ⟨rfl, Iff.rfl, ?_⟩
  intro RAND_MAX seeded portNum bitRate nDataBits parity rxTimeConst rxTimeIntv probErr s'
  obtain ⟨o1, o2, _, _, _⟩ := PHY_open_fields RAND_MAX seeded (PHY_close s).1 portNum bitRate
    nDataBits parity rxTimeConst rxTimeIntv probErr
  refine ⟨⟨o1, o2⟩, ?_⟩
  simp only [PHY_open, srand]
  split_ifs <;> rfl

/-- C14 at a failing input: from the example state, which satisfies the
cursor invariant, a send of length `-4` returns `-4` and moves the write
cursor from 5 back to 1, below the read cursor; the get of at most three
bytes that follows returns `-1`. -/
theorem negative_length_returns_negative :
    CursorInv exState ∧
    (PHY_send exState (ptrOf exPayload) (-4)).2 = -4 ∧
    (PHY_send exState (ptrOf exPayload) (-4)).1.nBytesWritten = 1 ∧
    (PHY_send exState (ptrOf exPayload) (-4)).1.nBytesUsed = 2 ∧
    (PHY_get (PHY_send exState (ptrOf exPayload) (-4)).1 (fun _ => 0) 3).2.2 = -1 := by
  decide

/-! ## The drained state -/

theorem flipBit_val (b : byte_t) (f : Nat) (hf : f < 8) :
    (flipBit b f).val = b.val ^^^ (1 <<< f) := by
  have h1 : 1 <<< f < 2 ^ 8 := by
    rw [Nat.one_shiftLeft]
    exact Nat.pow_lt_pow_right (by decide) hf
  have h2 : b.val < 2 ^ 8 := b.isLt
  have h3 : b.val ^^^ (1 <<< f) < 256 := Nat.xor_lt_two_pow h2 h1
  simp only [flipBit, toByte]
  rw [Nat.mod_eq_of_lt (show 1 <<< f < 256 from h1), Nat.mod_eq_of_lt h3]

theorem bitDistance_self (b : byte_t) : bitDistance b b = 0 := by
  simp [bitDistance]

theorem PHY_get_delivered (s : PhyState) (dataRX : Nat → byte_t) (m : Int)
    (ha : s.nBytesWritten - s.nBytesUsed ≠ 0) (hm : 0 < m) (i : Nat)
    (hi : (i : Int) < (PHY_get s dataRX m).2.2) :
    (PHY_get s dataRX m).2.1 i = deliveredByte s i := by
  rw [PHY_get_of_avail s dataRX m hm ha] at hi ⊢
  have : i < (min (s.nBytesWritten - s.nBytesUsed) m).toNat := by
    simp only at hi; omega
  simp only [this, if_true]

theorem PHY_get_flips (s : PhyState) (dataRX : Nat → byte_t) (m : Int)
    (hlt : ∀ j, (s.rnd j : Int) < s.threshold)
    (ha : s.nBytesWritten - s.nBytesUsed ≠ 0) (hm : 0 < m) (i : Nat)
    (hi : (i : Int) < (PHY_get s dataRX m).2.2) :
    bitDistance ((PHY_get s dataRX m).2.1 i) (s.buffer (s.nBytesUsed + (i : Int))) = 1 := by
  rw [PHY_get_delivered s dataRX m ha hm i hi, deliveredByte_of_lt s hlt i]
  exact bitDistance_flipBit _ _

/-- C16. Error injector per byte: for every threshold, every random stream
and every `PHY_get` in the data-available case, delivered byte `i` is decided
by one draw `d`, taken at the position the earlier iterations left: if
`d >= threshold` the byte is the stored byte `buffer[nBytesUsed + i]`; if
`d < threshold` a second draw `f` is taken and the byte is the stored byte
XOR `1 << (f mod 8)`. Every delivered byte differs from its stored byte in at
most one bit, and in exactly one bit precisely when `d < threshold`. -/
theorem error_injector_per_byte (s : PhyState) (dataRX : Nat → byte_t) (maxCount : Int)
    (havail : 0 < s.nBytesWritten - s.nBytesUsed) (hm : 0 < maxCount) (i : Nat)
    (hi : (i : Int) < (PHY_get s dataRX maxCount).2.2) :
    drawPos s.rnd s.threshold s.rpos 0 = s.rpos ∧
    drawPos s.rnd s.threshold s.rpos (i + 1) =
      drawPos s.rnd s.threshold s.rpos i +
        (if (s.rnd (drawPos s.rnd s.threshold s.rpos i) : Int) < s.threshold then 2 else 1) ∧
    (s.threshold ≤ (s.rnd (drawPos s.rnd s.threshold s.rpos i) : Int) →
      (PHY_get s dataRX maxCount).2.1 i = s.buffer (s.nBytesUsed + (i : Int))) ∧
    ((s.rnd (drawPos s.rnd s.threshold s.rpos i) : Int) < s.threshold →
      ((PHY_get s dataRX maxCount).2.1 i).val =
        (s.buffer (s.nBytesUsed + (i : Int))).val ^^^
          (1 <<< (s.rnd (drawPos s.rnd s.threshold s.rpos i + 1) % 8))) ∧
    bitDistance ((PHY_get s dataRX maxCount).2.1 i) (s.buffer (s.nBytesUsed + (i : Int))) ≤ 1 ∧
    (bitDistance ((PHY_get s dataRX maxCount).2.1 i) (s.buffer (s.nBytesUsed + (i : Int))) = 1
      ↔ (s.rnd (drawPos s.rnd s.threshold s.rpos i) : Int) < s.threshold) ∧
    (PHY_get s dataRX maxCount).1.rpos =
      drawPos s.rnd s.threshold s.rpos (PHY_get s dataRX maxCount).2.2.toNat := by
  have hout := PHY_get_delivered s dataRX maxCount (by omega) hm i hi
  have hrec : drawPos s.rnd s.threshold s.rpos (i + 1) =
      drawPos s.rnd s.threshold s.rpos i +
        (if (s.rnd (drawPos s.rnd s.threshold s.rpos i) : Int) < s.threshold then 2 else 1) := by
    simp only [drawPos]
    split_ifs <;> rfl
  have hpos : (PHY_get s dataRX maxCount).1.rpos =
      drawPos s.rnd s.threshold s.rpos (PHY_get s dataRX maxCount).2.2.toNat := by
    rw [PHY_get_of_avail s dataRX maxCount hm (by omega)]
    split_ifs <;> rfl
  rw [hout]
  by_cases hd : (s.rnd (drawPos s.rnd s.threshold s.rpos i) : Int) < s.threshold
  · have e : deliveredByte s i = flipBit (s.buffer (s.nBytesUsed + (i : Int)))
        (s.rnd (drawPos s.rnd s.threshold s.rpos i + 1) % 8) := by
      unfold deliveredByte; rw [if_pos hd]
    have hb := bitDistance_flipBit (s.buffer (s.nBytesUsed + (i : Int)))
      (s.rnd (drawPos s.rnd s.threshold s.rpos i + 1))
    refine ⟨rfl, hrec, fun h => absurd hd (not_lt.mpr h), fun _ => ?_, ?_, ?_, hpos⟩
    · rw [e]
      exact flipBit_val _ _ (Nat.mod_lt _ (by decide))
    · rw [e, hb]
    · rw [e, hb]
      exact ⟨fun _ => hd, fun _ => rfl⟩
  · have e : deliveredByte s i = s.buffer (s.nBytesUsed + (i : Int)) := by
      unfold deliveredByte; rw [if_neg hd]
    refine ⟨rfl, hrec, fun _ => e, fun h => absurd h hd, ?_, ?_, hpos⟩
    · rw [e, bitDistance_self]; exact Nat.zero_le 1
    · rw [e, bitDistance_self]
      exact ⟨fun h => absurd h (by decide), fun h => absurd h hd⟩

/-- Instance of C16: in the example state the threshold is 0 and the first
byte a get delivers is the stored byte; with the threshold 100 the first draw
is 3 and the byte has the bit `10 mod 8` inverted. -/
theorem error_injector_per_byte_witness :
    0 < exState.nBytesWritten - exState.nBytesUsed ∧ (0 : Int) < 2 ∧
    (PHY_get exState (fun _ => 0) 2).2.1 0 =
      exState.buffer (exState.nBytesUsed + ((0 : Nat) : Int)) ∧
    ((PHY_get exNoisy (fun _ => 0) 2).2.1 0).val =
      (exNoisy.buffer (exNoisy.nBytesUsed + ((0 : Nat) : Int))).val ^^^
        (1 <<< (exNoisy.rnd (drawPos exNoisy.rnd exNoisy.threshold exNoisy.rpos 0 + 1) % 8)) :=
  ⟨by decide, by decide,
   (error_injector_per_byte exState (fun _ => 0) 2 (by decide) (by decide) 0
     (by decide)).2.2.1 (by decide),
   (error_injector_per_byte exNoisy (fun _ => 0) 2 (by decide) (by decide) 0
     (by decide)).2.2.2.1 (by decide)⟩

/-! ## Reads in two parts -/

theorem drawPos_add (rnd : Nat → Nat) (threshold : Int) (p0 a b : Nat) :
    drawPos rnd threshold p0 (a + b) = drawPos rnd threshold (drawPos rnd threshold p0 a) b := by
  induction b with
  | zero => rfl
  | succ b ih =>
    rw [← Nat.add_assoc]
    simp only [drawPos, ih]

theorem firstBytes_add (f : Nat → byte_t) (a b : Nat) :
    firstBytes f (a + b) = firstBytes f a ++ firstBytes (fun j => f (a + j)) b := by
  simp only [firstBytes, List.range_add, List.map_append, List.map_map]
  rfl

theorem firstBytes_congr (f g : Nat → byte_t) (n : Nat) (h : ∀ i, i < n → f i = g i) :
    firstBytes f n = firstBytes g n := by
  simp only [firstBytes]
  apply List.map_congr_left
  intro i hi
  exact h i (List.mem_range.mp hi)

/-- C19. Split reads are equivalent to one read: for every threshold and
random stream, from a state satisfying the cursor invariant and for counts
`a >= 1`, `b >= 1` with `a + b <= nBytesWritten - nBytesUsed`, `PHY_get(a)`
followed by `PHY_get(b)` delivers, concatenated, the bytes of one
`PHY_get(a + b)` and ends in the same state. -/
theorem split_reads (s : PhyState) (rx1 rx2 rx : Nat → byte_t) (a b : Int)
    (hinv : CursorInv s) (ha : 1 ≤ a) (hb : 1 ≤ b)
    (hab : a + b ≤ s.nBytesWritten - s.nBytesUsed) :
    (PHY_get s rx1 a).2.2 = a ∧
    (PHY_get (PHY_get s rx1 a).1 rx2 b).2.2 = b ∧
    (PHY_get s rx (a + b)).2.2 = a + b ∧
    firstBytes (PHY_get s rx1 a).2.1 a.toNat ++
        firstBytes (PHY_get (PHY_get s rx1 a).1 rx2 b).2.1 b.toNat =
      firstBytes (PHY_get s rx (a + b)).2.1 (a + b).toNat ∧
    (PHY_get (PHY_get s rx1 a).1 rx2 b).1 = (PHY_get s rx (a + b)).1 := by
  have m1 : min (s.nBytesWritten - s.nBytesUsed) a = a := min_eq_right (by omega)
  have m3 : min (s.nBytesWritten - s.nBytesUsed) (a + b) = a + b := min_eq_right hab
  have g1 := PHY_get_of_avail s rx1 a (by omega) (by omega)
  rw [m1, if_neg (by omega)] at g1
  have g3 := PHY_get_of_avail s rx (a + b) (by omega) (by omega)
  rw [m3] at g3
  have g2 := PHY_get_of_avail (PHY_get s rx1 a).1 rx2 b (by omega) (by rw [g1]; simp only; omega)
  have m2 : min ((PHY_get s rx1 a).1.nBytesWritten - (PHY_get s rx1 a).1.nBytesUsed) b = b := by
    rw [g1]; exact min_eq_right (by simp only; omega)
  rw [m2] at g2
  have hsum : (a + b).toNat = a.toNat + b.toNat := by omega
  have hpos : drawPos s.rnd s.threshold (drawPos s.rnd s.threshold s.rpos a.toNat) b.toNat
      = drawPos s.rnd s.threshold s.rpos (a + b).toNat := by
    rw [hsum, drawPos_add]
  refine ⟨by rw [g1], by rw [g2], by rw [g3], ?_, ?_⟩
  · rw [g2, g3, hsum, firstBytes_add]
    congr 1
    · rw [g1]
      apply firstBytes_congr
      intro i hi
      have : i < a.toNat + b.toNat := by omega
      simp only [hi, this, if_true]
    · apply firstBytes_congr
      intro i hi
      have : a.toNat + i < a.toNat + b.toNat := by omega
      simp only [hi, this, if_true]
      rw [g1]
      simp only [deliveredByte, drawPos_add]
      have e : s.nBytesUsed + a + (i : Int) = s.nBytesUsed + ((a.toNat + i : Nat) : Int) := by
        omega
      rw [e]
  · rw [g2, g3, g1]
    simp only [hpos]
    have e : s.nBytesUsed + a + b = s.nBytesUsed + (a + b) := by ring
    by_cases hreset : s.nBytesUsed + (a + b) = s.nBytesWritten
    · rw [if_pos (by rw [e]; exact hreset), if_pos hreset]
    · rw [if_neg (by rw [e]; exact hreset), if_neg hreset, e]

/-- Instance of C19: in the example state, with three bytes available, a get
of one byte and a get of two end in the state of one get of three. -/
theorem split_reads_witness :
    CursorInv exState ∧ (1 : Int) ≤ 1 ∧ (1 : Int) ≤ 2 ∧
    (1 : Int) + 2 ≤ exState.nBytesWritten - exState.nBytesUsed ∧
    (PHY_get (PHY_get exState (fun _ => 0) 1).1 (fun _ => 0) 2).1 =
      (PHY_get exState (fun _ => 0) (1 + 2)).1 :=
  ⟨by decide, by decide, by decide, by decide,
   (split_reads exState (fun _ => 0) (fun _ => 0) (fun _ => 0) 1 2 (by decide) (by decide)
     (by decide) (by decide)).2.2.2.2⟩

/-! ## Saturation of the error model -/

/-- C20 at a failing input: on a platform with `RAND_MAX = 2147483647`, for
the probability `0.125 >= 0.125` the product `8.0 * RAND_MAX * 0.125` is
`2147483647.0`, the sum `1 + 2147483647` leaves the range of `int` and the
threshold is `-2147483648`, not above `RAND_MAX`; after a send of the example
payload, with a random stream whose values are in `[0, RAND_MAX]`, the first
byte a get delivers is the stored byte, with no bit inverted. -/
theorem no_saturation_at_large_RAND_MAX :
    0 < 2147483647 ∧
    double.le (double.fin false 1 (-3)) (double.fin false 1 (-3)) = true ∧
    (∀ j, exSeed j ≤ 2147483647) ∧
    exOpenedEighth.threshold = -2147483648 ∧
    ¬ (((2147483647 : Nat) : Int) < exOpenedEighth.threshold) ∧
    Reachable exOpenedEighth exSentEighth ∧
    0 < exSentEighth.nBytesWritten - exSentEighth.nBytesUsed ∧
    (0 : Int) < (PHY_get exSentEighth (fun _ => 0) 100).2.2 ∧
    bitDistance ((PHY_get exSentEighth (fun _ => 0) 100).2.1 0)
      (exSentEighth.buffer (exSentEighth.nBytesUsed + ((0 : Nat) : Int))) = 0 := by
  refine ⟨by decide, by decide, ?_, by decide, by decide,
    Reachable.send _ _ _ Reachable.init (by decide) (by decide),
    by decide, by decide, by decide⟩
  intro j
  have : exSeed j < 32768 := Nat.mod_lt _ (by decide)
  omega

/-! ## The timed wait -/

theorem waitms_loop_some (clock : Nat → Int) (endTick : Int) (fuel : Nat) :
    ∀ (pos p' : Nat), waitms_loop clock endTick fuel pos = some p' →
      pos + 1 ≤ p' ∧ endTick ≤ clock (p' - 1) ∧
      ∀ j, pos ≤ j → j < p' - 1 → clock j < endTick := by
  induction fuel with
  | zero =>
    intro pos p' h
    simp [waitms_loop] at h
  | succ fuel ih =>
    intro pos p' h
    simp only [waitms_loop] at h
    by_cases hc : clock pos < endTick
    · rw [if_pos hc] at h
      obtain ⟨h1, h2, h3⟩ := ih (pos + 1) p' h
      refine ⟨by omega, h2, ?_⟩
      intro j hj1 hj2
      by_cases e : j = pos
      · rw [e]; exact hc
      · exact h3 j (by omega) hj2
    · rw [if_neg hc] at h
      have e : p' = pos + 1 := (Option.some.inj h).symm
      subst e
      refine ⟨le_refl _, ?_, ?_⟩
      · simp only [Nat.add_sub_cancel]
        exact not_lt.mp hc
      · intro j hj1 hj2
        simp only [Nat.add_sub_cancel] at hj2
        omega

theorem waitms_loop_returns (clock : Nat → Int) (endTick : Int) (d : Nat) :
    ∀ pos : Nat, endTick ≤ clock (pos + d) →
      ∃ p', waitms_loop clock endTick (d + 1) pos = some p' ∧ p' ≤ pos + d + 1 := by
  induction d with
  | zero =>
    intro pos h
    refine ⟨pos + 1, ?_, le_refl _⟩
    have hc : ¬ clock pos < endTick := not_lt.mpr h
    simp only [waitms_loop]
    rw [if_neg hc]
  | succ d ih =>
    intro pos h
    by_cases hc : clock pos < endTick
    · obtain ⟨p', h1, h2⟩ := ih (pos + 1) (by rw [show pos + 1 + d = pos + (d + 1) by omega]; exact h)
      refine ⟨p', ?_, by omega⟩
      rw [waitms_loop, if_pos hc]
      exact h1
    · refine ⟨pos + 1, ?_, by omega⟩
      rw [waitms_loop, if_neg hc]

/-- C17. Timed wait: for a delay `delay_ms >= 0` and a non-decreasing sequence
of clock readings, `waitms` returns only after a reading that is at least the
first reading plus `delay_ms * CLOCKS_PER_SEC / 1000` ticks; every reading the
loop made before it was below that end tick, so there is no earlier exit, and
every later reading is at or above it. When some reading reaches the end tick
the wait does return, at the first such reading. -/
theorem timed_wait (CLOCKS_PER_SEC : Int) (clock : Nat → Int) (pos : Nat) (delay_ms : Int)
    (hd : 0 ≤ delay_ms) (hcps : 0 ≤ CLOCKS_PER_SEC) (hmono : Monotone clock) :
    0 ≤ Int.tdiv (delay_ms * CLOCKS_PER_SEC) 1000 ∧
    (∀ (fuel p' : Nat), waitms CLOCKS_PER_SEC clock fuel pos delay_ms = some p' →
      pos + 2 ≤ p' ∧
      clock pos + Int.tdiv (delay_ms * CLOCKS_PER_SEC) 1000 ≤ clock (p' - 1) ∧
      (∀ j, pos + 1 ≤ j → j < p' - 1 →
        clock j < clock pos + Int.tdiv (delay_ms * CLOCKS_PER_SEC) 1000) ∧
      (∀ j, p' - 1 ≤ j →
        clock pos + Int.tdiv (delay_ms * CLOCKS_PER_SEC) 1000 ≤ clock j)) ∧
    (∀ j, pos + 1 ≤ j → clock pos + Int.tdiv (delay_ms * CLOCKS_PER_SEC) 1000 ≤ clock j →
      ∃ p', waitms CLOCKS_PER_SEC clock (j - pos) pos delay_ms = some p' ∧ p' ≤ j + 1) := by
  refine ⟨?_, ?_, ?_⟩
  · rw [Int.tdiv_eq_ediv (Int.mul_nonneg hd hcps) (by decide)]
    exact Int.ediv_nonneg (Int.mul_nonneg hd hcps) (by decide)
  · intro fuel p' h
    obtain ⟨h1, h2, h3⟩ := waitms_loop_some clock _ fuel (pos + 1) p' h
    refine ⟨by omega, h2, h3, ?_⟩
    intro j hj
    exact le_trans h2 (hmono hj)
  · intro j hj hc
    have e : j = pos + 1 + (j - pos - 1) := by omega
    rw [e] at hc
    obtain ⟨p', h1, h2⟩ := waitms_loop_returns clock _ (j - pos - 1) (pos + 1) hc
    refine ⟨p', ?_, by omega⟩
    have e2 : j - pos = j - pos - 1 + 1 := by omega
    simp only [waitms]
    rw [e2]
    exact h1

/-- Instance of C17: with 1000 ticks per second and a reading every 10 ticks,
a wait of 25 ms that starts at the reading 0 returns after the reading 30. -/
theorem timed_wait_witness :
    (0 : Int) ≤ 25 ∧ (0 : Int) ≤ 1000 ∧
    waitms 1000 exClock 10 0 25 = some 4 ∧
    exClock 0 + Int.tdiv (25 * 1000) 1000 ≤ exClock (4 - 1) :=
  ⟨by decide, by decide, by decide,
   ((timed_wait 1000 exClock 0 25 (by decide) (by decide)
      (monotone_nat_of_le_succ (fun n => by simp only [exClock]; omega))).2.1
      10 4 (by decide)).2.1⟩

/-! ## Index safety -/

theorem forLoopM_preambleBody (k : Nat) (s : PhyState) (hk : (k : Int) ≤ BUFSIZE) :
    forLoopM preambleBody_checked k s = some (forLoop preambleBody k s) := by
  induction k with
  | zero => rfl
  | succ k ih =>
    have hk' : (k : Int) ≤ BUFSIZE := by omega
    have hc : (0 : Int) ≤ (k : Int) ∧ (k : Int) < BUFSIZE := by omega
    simp only [forLoopM, ih hk', Option.some_bind, forLoop, preambleBody_checked, preambleBody,
      rand, writeBuffer, hc, and_self, if_true]

theorem sendPreamble_checked_eq (s : PhyState) :
    sendPreamble_checked s = some (sendPreamble s) := by
  unfold sendPreamble_checked sendPreamble
  by_cases h : s.nBytesWritten = 0
  · simp only [h, if_true, rand]
    apply forLoopM_preambleBody
    simp only [BUFSIZE]
    omega
  · simp only [h, if_false]

theorem forLoopM_copyBody (dataTX : Nat → byte_t) (sizeTX : Int) (k : Nat) (s : PhyState)
    (h0 : 0 ≤ s.nBytesWritten) (hk : s.nBytesWritten + (k : Int) ≤ BUFSIZE)
    (hs : (k : Int) ≤ sizeTX) :
    forLoopM (copyBody_checked dataTX sizeTX) k s = some (forLoop (copyBody dataTX) k s) := by
  induction k with
  | zero => rfl
  | succ k ih =>
    have hw : (forLoop (copyBody dataTX) k s).nBytesWritten = s.nBytesWritten := by
      rw [forLoop_copyBody]
    have hr : (k : Int) < sizeTX := by omega
    have hc : 0 ≤ s.nBytesWritten + (k : Int) ∧ s.nBytesWritten + (k : Int) < BUFSIZE := by
      omega
    simp only [forLoopM, ih (by omega) (by omega), Option.some_bind, forLoop,
      copyBody_checked, copyBody, readArray, hr, if_true, writeBuffer, hw, hc, and_self]

theorem forLoopM_getBody (sizeRX : Int) (k : Nat) (s : PhyState) (dataRX : Nat → byte_t)
    (h0 : 0 ≤ s.nBytesUsed) (hk : s.nBytesUsed + (k : Int) ≤ BUFSIZE)
    (hs : (k : Int) ≤ sizeRX) :
    forLoopM (getBody_checked sizeRX) k (s, dataRX) = some (forLoop getBody k (s, dataRX)) := by
  induction k with
  | zero => rfl
  | succ k ih =>
    have hu : (forLoop getBody k (s, dataRX)).1.nBytesUsed = s.nBytesUsed := by
      rw [forLoop_getBody]
    have hr : (k : Int) < sizeRX := by omega
    have hc : 0 ≤ s.nBytesUsed + (k : Int) ∧ s.nBytesUsed + (k : Int) < BUFSIZE := by
      omega
    simp only [forLoopM, ih (by omega) (by omega), Option.some_bind, forLoop,
      getBody_checked, getBody, readBuffer, hu, hc, and_self, if_true, rand, writeArray, hr]
    split_ifs <;> rfl

/-- A send whose room check does not overflow passes every index check. -/
theorem PHY_send_checked_eq (s : PhyState) (dataTX : Nat → byte_t) (sizeTX n : Int)
    (hinv : CursorInv s) (hn : 0 ≤ n) (hs : n ≤ sizeTX)
    (hfit : (sendPreamble s).nBytesWritten + n ≤ INT_MAX) :
    PHY_send_checked s dataTX sizeTX n = some (PHY_send s dataTX n) := by
  obtain ⟨⟨h1, h2, h3⟩, h4⟩ := sendPreamble_cursor s hinv
  obtain ⟨c1, c2, c3, _, _⟩ := sendCount_bounds (sendPreamble s) n (by omega) h3 hn hfit
  simp only [PHY_send_checked, sendPreamble_checked_eq, Option.some_bind]
  rw [forLoopM_copyBody dataTX sizeTX _ (sendPreamble s) (by omega) (by omega) (by omega)]
  rfl

/-- A get from a state satisfying the cursor invariant passes every index
check, for an output array of `max(maxCount, 0)` bytes or more. -/
theorem PHY_get_checked_eq (s : PhyState) (dataRX : Nat → byte_t) (sizeRX m : Int)
    (hinv : CursorInv s) (hs : max m 0 ≤ sizeRX) :
    PHY_get_checked s dataRX sizeRX m = some (PHY_get s dataRX m) := by
  obtain ⟨h1, h2, h3⟩ := hinv
  have hs1 : m ≤ sizeRX := le_trans (le_max_left m 0) hs
  unfold PHY_get_checked PHY_get
  by_cases hm : m ≤ 0
  · simp only [hm, if_true]
  · simp only [hm, if_false]
    by_cases ha : s.nBytesWritten - s.nBytesUsed = 0
    · have hz : ((0 : Nat) : Int) < sizeRX := by omega
      simp only [ha, if_true, rand, writeArray, hz, Option.some_bind]
    · simp only [ha, if_false]
      have hg : (if m > s.nBytesWritten - s.nBytesUsed then s.nBytesWritten - s.nBytesUsed
          else m) ≤ s.nBytesWritten - s.nBytesUsed ∧
          (if m > s.nBytesWritten - s.nBytesUsed then s.nBytesWritten - s.nBytesUsed
          else m) ≤ m := by
        split_ifs <;> omega
      rw [forLoopM_getBody sizeRX _ s dataRX h1 (by omega) (by omega)]
      rfl

/-- The index checks are effective: a send of three bytes from an array of two,
a send at a negative write cursor and a get of four bytes into an array of
one all fail. -/
theorem checked_indexing_rejects :
    (PHY_send_checked exState (ptrOf exPayload) 2 3).isNone = true ∧
    (PHY_send_checked { exState with nBytesWritten := -3, nBytesUsed := -3 }
      (ptrOf exPayload) 3 3).isNone = true ∧
    (PHY_get_checked exState (fun _ => 0) 1 4).isNone = true := by
  decide

theorem forLoopM_none_of_step {σ : Type} (body : Nat → σ → Option σ) (s sj : σ) (j : Nat)
    (hj : forLoopM body j s = some sj) (hfail : body j sj = none) :
    ∀ k : Nat, j < k → forLoopM body k s = none := by
  intro k
  induction k with
  | zero => intro h; omega
  | succ k ih =>
    intro h
    show (forLoopM body k s).bind (body k) = none
    by_cases e : j = k
    · subst e
      rw [hj, Option.some_bind, hfail]
    · rw [ih (by omega), Option.none_bind]

theorem PHY_send_checked_none (s : PhyState) (dataTX : Nat → byte_t) (sizeTX n : Int)
    (h : forLoopM (copyBody_checked dataTX sizeTX) (sendCount (sendPreamble s) n).toNat
      (sendPreamble s) = none) :
    PHY_send_checked s dataTX sizeTX n = none := by
  unfold PHY_send_checked
  rw [sendPreamble_checked_eq, Option.some_bind]
  simp only [h, Option.none_bind]

/-- C18 at a failing input: a send of 2147483647 bytes from the example state,
which satisfies the cursor invariant, from an array that holds 2147483647
bytes. The room check wraps, all the bytes are to be copied, and with checked
indexing the copy fails: iteration 1995 stores at `buffer[2000]`. -/
theorem send_overflow_index_out_of_range :
    CursorInv exState ∧ (0 : Int) ≤ 2147483647 ∧
    (forLoopM (copyBody_checked exBig 2147483647) 1995 exState).isSome = true ∧
    writeBuffer (forLoop (copyBody exBig) 1995 exState) 2000 (exBig 1995) = none ∧
    (PHY_send_checked exState exBig 2147483647 2147483647).isNone = true := by
  have h1995 : forLoopM (copyBody_checked exBig 2147483647) 1995 exState =
      some (forLoop (copyBody exBig) 1995 exState) :=
    forLoopM_copyBody exBig 2147483647 1995 exState (by decide) (by decide) (by decide)
  have hw : (forLoop (copyBody exBig) 1995 exState).nBytesWritten = 5 := by
    rw [forLoop_copyBody]
    rfl
  have hwrite : writeBuffer (forLoop (copyBody exBig) 1995 exState) 2000 (exBig 1995) = none := by
    unfold writeBuffer
    rw [if_neg (by decide)]
  have hfail : copyBody_checked exBig 2147483647 1995 (forLoop (copyBody exBig) 1995 exState)
      = none := by
    have hr : readArray exBig 2147483647 1995 = some (exBig 1995) := by
      unfold readArray
      rw [if_pos (by decide)]
    have e : (forLoop (copyBody exBig) 1995 exState).nBytesWritten + ((1995 : Nat) : Int)
        = 2000 := by
      rw [hw]; decide
    unfold copyBody_checked
    rw [hr, Option.some_bind, e, hwrite]
  have hloop : forLoopM (copyBody_checked exBig 2147483647) 2147483647 exState = none :=
    forLoopM_none_of_step (copyBody_checked exBig 2147483647) exState
      (forLoop (copyBody exBig) 1995 exState) 1995 h1995 hfail 2147483647 (by decide)
  have hpre : sendPreamble exState = exState := sendPreamble_of_ne exState (by decide)
  have hcount : (sendCount exState 2147483647).toNat = 2147483647 := by decide
  refine ⟨by decide, by decide, by rw [h1995]; rfl, hwrite, ?_⟩
  rw [PHY_send_checked_none exState exBig 2147483647 2147483647
    (by rw [hpre, hcount]; exact hloop)]
  rfl

end PhySim
